import Mathlib

/-!
# cexception: try/catch/finally for C on top of setjmp/longjmp

A shallow embedding of `src/cexception.c` and of the control structure that the
`TRY` / `CATCH` / `NOEXCEP` / `FINALLY` / `TRY_END` / `INT_TRY` / `BREAK_TRY`
definitions of `src/cexception.h` expand to.

* Pointers are addresses (`Nat`); a nullable pointer is an `Option`.
* `ExceptionType` records live in an immutable table indexed by address.
* A `TryCatchContext` lives at the address of the region that declared it; its
  `jmp_buf env` is identified with that address.
* Code the user writes inside the blocks of a region is a small statement
  language (`Stmt`); the library code around it is translated line by line.
* Calls that leave the library (deleter callbacks, the uncaught handler, output
  to stderr, user counters) are recorded in `Machine.trace`, together with a few
  bookkeeping events (block entries, push, pop).
-/

namespace CException

/-! ## Data model (cexception.h, lines 162-191) -/

/-- The enum `TryCatchStatus`, in declaration order. -/
inductive TryCatchStatus where
  | Trying
  | NoException
  | ExceptionOccurred0
  | ExceptionOccurred1
  | CaughtException
  | Interrupted
  deriving DecidableEq, Repr, Inhabited

/-- The struct `ExceptionType`: a name and a nullable pointer to the parent. -/
structure ExceptionType where
  name : String
  parent : Option Nat
  deriving DecidableEq, Repr, Inhabited

/-- The struct `ExceptionInstance`. `type` is the address of an `ExceptionType`,
`deleter` the address of a callback (or NULL), `file` and `message` nullable
strings. -/
structure ExceptionInstance where
  type : Nat
  message : Option String
  deleter : Option Nat
  file : Option String
  line : Nat
  deriving DecidableEq, Repr, Inhabited

/-- The struct `TryCatchContext`. The `env` member is not a field: a saved
execution point is identified with the address of the context that holds it. -/
structure TryCatchContext where
  status : TryCatchStatus
  exception : ExceptionInstance
  link : Option Nat
  deriving DecidableEq, Repr, Inhabited

/-- The address of the global `EXCEPTION` (cexception.c, line 65). -/
def EXCEPTION_addr : Nat := 0

/-- The value of the global `EXCEPTION` (cexception.c, line 65). -/
def EXCEPTION : ExceptionType := { name := "Exception", parent := none }

/-- The immutable table of `ExceptionType` records, by address. -/
abbrev TypeTable := Nat → ExceptionType

/-! ## exception_instance_of (cexception.c, lines 97-110) -/

/-- The `while (parent != nullptr)` loop of `exception_instance_of`; `none`
when the fuel runs out before the loop ends. -/
def instance_of_loop (types : TypeTable) (type : Nat) : Nat → Option Nat → Option Bool
  | 0, _ => none
  | _ + 1, none => some false
  | fuel + 1, some parent =>
    if parent = type then some true
    else instance_of_loop types type fuel (types parent).parent

/-- The function `exception_instance_of(exception, type)`. -/
def exception_instance_of (types : TypeTable) (fuel : Nat) (exception : ExceptionInstance)
    (type : Nat) : Option Bool :=
  if exception.type = type ∨ type = EXCEPTION_addr then some true
  else instance_of_loop types type fuel (types exception.type).parent

/-- The `n`-th element of the parent chain that starts at the pointer `p`. -/
def chain (types : TypeTable) : Nat → Option Nat → Option Nat
  | 0, p => p
  | n + 1, p => chain types n (p.bind fun a => (types a).parent)

/-- An acyclic hierarchy: every parent chain reaches the null pointer. -/
def Acyclic (types : TypeTable) : Prop :=
  ∀ t : Nat, ∃ n, chain types n (some t) = none

/-- The type at `anc` is a proper ancestor of the type at `t`: it is reached
from `t` by one or more parent links. -/
def IsAncestor (types : TypeTable) (anc t : Nat) : Prop :=
  Relation.TransGen (fun c p => (types c).parent = some p) t anc

/-- The matching relation of the specification: same node, universal root, or
proper ancestor. -/
def Matches (types : TypeTable) (e : ExceptionInstance) (t : Nat) : Prop :=
  e.type = t ∨ t = EXCEPTION_addr ∨ IsAncestor types t e.type

/-! ## print_exception_info (cexception.c, lines 82-95) -/

/-- The characters `print_exception_info(exception, stream)` writes to the
stream. The `%u` conversion prints the line in unsigned decimal. -/
def print_exception_info (types : TypeTable) (exception : ExceptionInstance) : String :=
  let head :=
    match exception.file with
    | none => (types exception.type).name ++ " (unknown source)"
    | some file =>
      if exception.line = 0 then
        (types exception.type).name ++ " (file \"" ++ file ++ "\")"
      else
        (types exception.type).name ++ " (file \"" ++ file ++ "\", line "
          ++ Nat.repr exception.line ++ ")"
  let tail :=
    match exception.message with
    | some message => ": " ++ message
    | none => ""
  head ++ tail ++ "\n"

/-! ## Machine state -/

/-- What leaves the library, in the order it happens, plus bookkeeping events. -/
inductive Event where
  /-- A deleter callback at address `fn` is called on `message`. -/
  | deleter (fn : Nat) (message : Option String)
  /-- The uncaught-exception handler at address `fn` is called on `x`. -/
  | handler (fn : Nat) (x : ExceptionInstance)
  /-- Characters written to stderr. -/
  | stderr (text : String)
  /-- The call of `abort()`. -/
  | abort
  /-- User code increments its counter number `c`. -/
  | tick (c : Nat)
  /-- User code reads the type name and the message through a catch variable. -/
  | observe (name : String) (message : Option String)
  /-- The body of the region at `a` is entered. -/
  | enterBody (a : Nat)
  /-- The block of catch clause number `i` of the region at `a` is entered. -/
  | enterCatch (a : Nat) (i : Nat)
  /-- The NOEXCEP block of the region at `a` is entered. -/
  | enterNoexcep (a : Nat)
  /-- The FINALLY block of the region at `a` is entered. -/
  | enterFinally (a : Nat)
  /-- The statement handed to INT_TRY or BREAK_TRY in the region at `a` runs. -/
  | statement (a : Nat)
  /-- The call `try_catch_context_stack_push(a)`. -/
  | push (a : Nat)
  /-- The call `try_catch_context_stack_pop()`. -/
  | pop
  deriving DecidableEq, Repr

/-- The two locals that `TRY` declares in the block it opens. -/
structure RegionLocals where
  _try_catch_context : TryCatchContext
  _try_catch_finally_executed : Bool
  deriving DecidableEq, Repr, Inhabited

/-- The state of one thread. `mem` holds the locals of the regions by address
(an address that no region has claimed yet holds indeterminate values),
`next` is the address the next region entry gets. -/
structure Machine where
  mem : Nat → RegionLocals
  next : Nat
  /-- The thread-local `try_catch_context_stack` (cexception.c, line 67). -/
  try_catch_context_stack : Option Nat
  /-- The thread-local `uncaught_exception_handler` (cexception.c, line 69). -/
  uncaught_exception_handler : Nat
  /-- Modelled from the spec: the thread-local interrupted-env slot behind
  `get_try_catch_interrupted_env()`, which cexception.h declares and
  cexception.c does not define. It holds the region whose INT_TRY called setjmp
  on it last, if any. -/
  try_catch_interrupted_env : Option Nat
  trace : List Event

/-- The address of the function `default_uncaught_exception_handler`. -/
def default_uncaught_exception_handler_addr : Nat := 0

/-- The values `throw_exception` hands to longjmp are the enumerators
`TryCatchStatusExceptionOccurred` and `TryCatchStatusExceptionRaised`, which
cexception.h does not declare; they are parameters, together with the type
table of the program. -/
structure Env where
  types : TypeTable
  TryCatchStatusExceptionOccurred : Int
  TryCatchStatusExceptionRaised : Int

/-- How control leaves a piece of code. -/
inductive Outcome where
  /-- Control falls off the end. -/
  | normal
  /-- A longjmp to the `env` of the context at `target` carrying `val`. -/
  | jump (target : Nat) (val : Int)
  /-- A longjmp to the interrupted env, saved by INT_TRY in the region at `site`. -/
  | resume (site : Nat)
  /-- The statement of INT_TRY or BREAK_TRY left the region. -/
  | exit
  /-- The uncaught-exception handler took over; the thread does not go on. -/
  | halt
  /-- Behaviour the C standard leaves undefined (null or indeterminate pointer). -/
  | undefined
  /-- The fuel ran out; the machine is the state reached so far. -/
  | timeout
  deriving DecidableEq, Repr

namespace Machine

/-- The context of the region at `a`. -/
def ctx (m : Machine) (a : Nat) : TryCatchContext := (m.mem a)._try_catch_context

/-- The flag `_try_catch_finally_executed` of the region at `a`. -/
def finally_executed (m : Machine) (a : Nat) : Bool := (m.mem a)._try_catch_finally_executed

/-- Append an event to the trace. -/
def log (m : Machine) (e : Event) : Machine := { m with trace := m.trace ++ [e] }

/-- Assignment to `_try_catch_context.status` of the region at `a`. -/
def setStatus (m : Machine) (a : Nat) (s : TryCatchStatus) : Machine :=
  { m with mem := (Function.update m.mem a
      { m.mem a with _try_catch_context := { m.ctx a with status := s } }) }

/-- Assignment to the `exception` member of the context at `a`. -/
def setException (m : Machine) (a : Nat) (x : ExceptionInstance) : Machine :=
  { m with mem := (Function.update m.mem a
      { m.mem a with _try_catch_context := { m.ctx a with exception := x } }) }

/-- Assignment to the `link` member of the context at `a`. -/
def setLink (m : Machine) (a : Nat) (l : Option Nat) : Machine :=
  { m with mem := (Function.update m.mem a
      { m.mem a with _try_catch_context := { m.ctx a with link := l } }) }

/-- Assignment to `_try_catch_finally_executed` of the region at `a`. -/
def setFinallyExecuted (m : Machine) (a : Nat) (b : Bool) : Machine :=
  { m with mem := (Function.update m.mem a
      { m.mem a with _try_catch_finally_executed := b }) }

/-- The number of times counter `c` was incremented. -/
def counter (m : Machine) (c : Nat) : Nat := m.trace.count (Event.tick c)

end Machine

/-- A thread that has not entered any region: empty context stack, default
handler, nothing traced. -/
def Machine.init : Machine :=
  { mem := fun _ => default
    next := 0
    try_catch_context_stack := none
    uncaught_exception_handler := default_uncaught_exception_handler_addr
    try_catch_interrupted_env := none
    trace := [] }

/-! ## The library functions of cexception.c -/

/-- The block `DROP_EXCEPTION(exception)` (cexception.h, lines 148-154): call
the deleter on the message when the deleter is not NULL. -/
def DROP_EXCEPTION (m : Machine) (exception : ExceptionInstance) : Machine :=
  match exception.deleter with
  | some fn => m.log (Event.deleter fn exception.message)
  | none => m

/-- The function `default_uncaught_exception_handler` (cexception.c, lines
133-137): print to stderr, then abort. -/
def default_uncaught_exception_handler (E : Env) (m : Machine)
    (exception : ExceptionInstance) : Machine × Outcome :=
  (((m.log (Event.stderr (print_exception_info E.types exception))).log Event.abort),
    Outcome.halt)

/-- The call through the pointer `uncaught_exception_handler`. The default
handler is the function above; any other handler is user code that, by its
contract, does not return. -/
def call_uncaught_exception_handler (E : Env) (m : Machine) (fn : Nat)
    (exception : ExceptionInstance) : Machine × Outcome :=
  if fn = default_uncaught_exception_handler_addr then
    default_uncaught_exception_handler E (m.log (Event.handler fn exception)) exception
  else
    (m.log (Event.handler fn exception), Outcome.halt)

/-- The function `throw_exception` (cexception.c, lines 71-80). -/
def throw_exception (E : Env) (m : Machine) (exception : ExceptionInstance) :
    Machine × Outcome :=
  match m.try_catch_context_stack with
  | none => call_uncaught_exception_handler E m m.uncaught_exception_handler exception
  | some top =>
    let m1 := DROP_EXCEPTION m (m.ctx top).exception
    let m2 := m1.setException top exception
    (m2, Outcome.jump top
      (if (m2.ctx top).status = TryCatchStatus.Trying then E.TryCatchStatusExceptionOccurred
       else E.TryCatchStatusExceptionRaised))

/-- The function `try_catch_context_stack_push` (cexception.c, lines 112-115). -/
def try_catch_context_stack_push (m : Machine) (context : Nat) : Machine :=
  { (m.setLink context m.try_catch_context_stack) with
      try_catch_context_stack := some context }.log (Event.push context)

/-- The function `try_catch_context_stack_pop` (cexception.c, lines 117-119);
`none` when the stack pointer is null. -/
def try_catch_context_stack_pop (m : Machine) : Option Machine :=
  match m.try_catch_context_stack with
  | none => none
  | some top => some ({ m with try_catch_context_stack := (m.ctx top).link }.log Event.pop)

/-- The function `get_uncaught_exception_handler` (cexception.c, lines 125-127). -/
def get_uncaught_exception_handler (m : Machine) : Nat := m.uncaught_exception_handler

/-- The function `set_uncaught_exception_handler` (cexception.c, lines 129-131). -/
def set_uncaught_exception_handler (m : Machine) (handler : Nat) : Machine :=
  { m with uncaught_exception_handler := handler }

/-! ## User code -/

mutual
/-- A statement of user code inside a block of a region (or at top level).
`THROW x` stands for `THROW(&x)` on an instance `x` built by user code (by
`THROW_NEW` for one); `THROW_variable` for `THROW(variable)` on the variable of
the enclosing catch clause; `INT_TRY` and `BREAK_TRY` for the constructs of that
name applied to a jump statement that leaves the region they stand in, to the
point right after its `TRY_END`. -/
inductive Stmt where
  | tick (c : Nat)
  | observe
  | THROW (x : ExceptionInstance)
  | THROW_variable
  | INT_TRY
  | BREAK_TRY
  | TRY (r : Region)
/-- A protected region: `TRY body CATCH(T1, v1) h1 ... NOEXCEP n FINALLY f TRY_END`,
the last two blocks optional. A catch clause is the address of its type and its
block. -/
inductive Region where
  | mk (body : List Stmt) (catches : List (Nat × List Stmt))
      (noexcep : Option (List Stmt)) (finally_block : Option (List Stmt))
end

/-- The body of a region. -/
def Region.body : Region → List Stmt
  | .mk b _ _ _ => b

/-- The catch clauses of a region, in declaration order. -/
def Region.catches : Region → List (Nat × List Stmt)
  | .mk _ c _ _ => c

/-- The NOEXCEP block of a region, if it has one. -/
def Region.noexcep : Region → Option (List Stmt)
  | .mk _ _ n _ => n

/-- The FINALLY block of a region, if it has one. -/
def Region.finally_block : Region → Option (List Stmt)
  | .mk _ _ _ f => f

/-! ## The control structure of cexception.h -/

/-- The code of `TRY` before the call of setjmp (cexception.h, lines 46-51):
the locals of the region get the address `m.next`; status and deleter are
assigned, the other members of the exception keep their indeterminate
values; the context is pushed. -/
def TRY (m : Machine) : Machine :=
  let a := m.next
  let m1 := { m with next := a + 1 }
  let m2 := m1.setFinallyExecuted a false
  let m3 := m2.setStatus a TryCatchStatus.Trying
  let m4 := m3.setException a { (m3.ctx a).exception with deleter := none }
  try_catch_context_stack_push m4 a

/-- The chain of `else if` conditions that the `CATCH` clauses of a region make
(cexception.h, lines 56-57), from clause number `i` on: the first clause whose
condition `status == ExceptionOccurred0 && exception_instance_of(...)` holds,
as its number and block. The outer `none` is fuel running out inside
`exception_instance_of`. -/
def catch_select (E : Env) (fuel : Nat) (context : TryCatchContext) :
    List (Nat × List Stmt) → Nat → Option (Option (Nat × List Stmt))
  | [], _ => some none
  | (type, block) :: rest, i =>
    if context.status = TryCatchStatus.ExceptionOccurred0 then
      match exception_instance_of E.types fuel context.exception type with
      | none => none
      | some true => some (some (i, block))
      | some false => catch_select E fuel context rest (i + 1)
    else catch_select E fuel context rest (i + 1)

/-- The `CATCH` clauses of the region at `a` at the dispatch point: select a
clause and run the first two lines of its block (cexception.h, lines 58-59),
which set the status and bind the variable to the exception of the context at
`a`. Returns the machine and the selected clause, if any. -/
def CATCH (E : Env) (fuel : Nat) (m : Machine) (a : Nat)
    (catches : List (Nat × List Stmt)) : Option (Machine × Option (Nat × List Stmt)) :=
  match catch_select E fuel (m.ctx a) catches 0 with
  | none => none
  | some none => some (m, none)
  | some (some (i, block)) =>
    some ((m.setStatus a TryCatchStatus.CaughtException).log (Event.enterCatch a i),
      some (i, block))

/-- The block `BREAK_TRY(statement)` in the region at `a` (cexception.h, lines
112-118): pop, drop the exception of the context at `a`, run the statement. -/
def BREAK_TRY (m : Machine) (a : Nat) : Machine × Outcome :=
  match try_catch_context_stack_pop m with
  | none => (m, Outcome.undefined)
  | some m1 =>
    ((DROP_EXCEPTION m1 (m1.ctx a).exception).log (Event.statement a), Outcome.exit)

/-- The block `INT_TRY(statement)` in the region at `a` (cexception.h, lines
99-110), up to the point where control leaves it. When the flag is clear,
setjmp saves the execution point in the interrupted env and returns 0. -/
def INT_TRY (m : Machine) (a : Nat) : Machine × Outcome :=
  if m.finally_executed a then BREAK_TRY m a
  else
    let m1 := { m with try_catch_interrupted_env := some a }
    (m1.setStatus a TryCatchStatus.Interrupted, Outcome.jump a 0)

/-- The arrival of `longjmp(*get_try_catch_interrupted_env(), 1)` at the region at
`a`: when the env was saved by the INT_TRY of this region, setjmp returns 1 there
and the `BREAK_TRY(statement)` that ends INT_TRY runs (cexception.h, line 108). -/
def land_interrupted (a : Nat) : Machine × Outcome → Machine × Outcome
  | (m, Outcome.resume site) => if site = a then BREAK_TRY m a else (m, Outcome.resume site)
  | res => res

/-- The code of `TRY_END` in the region at `a` (cexception.h, lines 78-86). -/
def TRY_END (E : Env) (m : Machine) (a : Nat) : Machine × Outcome :=
  if (m.ctx a).status = TryCatchStatus.Interrupted then
    match m.try_catch_interrupted_env with
    | none => (m, Outcome.undefined)
    | some site => land_interrupted a (m, Outcome.resume site)
  else
    match try_catch_context_stack_pop m with
    | none => (m, Outcome.undefined)
    | some m1 =>
      if (m1.ctx a).status = TryCatchStatus.ExceptionOccurred0 ∨
          (m1.ctx a).status = TryCatchStatus.ExceptionOccurred1 then
        throw_exception E m1 (m1.ctx a).exception
      else
        (DROP_EXCEPTION m1 (m1.ctx a).exception, Outcome.normal)

/-- The two assignments `if (status == Trying) status = NoException` that open
`NOEXCEP` and `FINALLY` (cexception.h, lines 63-65 and 70-72). -/
def settle_no_exception (m : Machine) (a : Nat) : Machine :=
  if (m.ctx a).status = TryCatchStatus.Trying then
    m.setStatus a TryCatchStatus.NoException
  else m

/-- Where the control of a region stands between its blocks. -/
inductive Phase where
  /-- Right after `setjmp(_try_catch_context.env)` returned (cexception.h, line 52). -/
  | dispatch
  /-- At the code of `NOEXCEP`, or past the catch clauses when there is none. -/
  | noexcep
  /-- At the code of `FINALLY`, or past the NOEXCEP block when there is none. -/
  | finally_block
  /-- At the code of `TRY_END`. -/
  | try_end
  deriving DecidableEq, Repr

/-- What stands to be run: a block of user code in the scope of the region at
`scope` (none at top level), or the region at `a` from a phase on. -/
inductive Task where
  | block (scope : Option Nat) (code : List Stmt)
  | region (a : Nat) (r : Region) (p : Phase)

/-- What a region does when one of its blocks has ended. -/
inductive Next where
  /-- The block fell off its end: go on with the next phase. -/
  | proceed (m : Machine)
  /-- A longjmp to the env of this region: setjmp returns again (its value is
  cast to void, cexception.h line 52) and the dispatch runs again. -/
  | redispatch (m : Machine)
  /-- Control leaves the region. -/
  | leave (res : Machine × Outcome)

/-- The decision of the region at `a` on the outcome of one of its blocks. -/
def next (a : Nat) : Machine × Outcome → Next
  | (m, Outcome.normal) => Next.proceed m
  | (m, Outcome.jump target val) =>
    if target = a then Next.redispatch m else Next.leave (m, Outcome.jump target val)
  | (m, Outcome.resume site) => Next.leave (land_interrupted a (m, Outcome.resume site))
  | res => Next.leave res

/-- Run a task with the given fuel. Every block entry, statement and phase of a
region costs one unit. -/
def exec (E : Env) : Nat → Task → Machine → Machine × Outcome
  | 0, _, m => (m, Outcome.timeout)
  | _ + 1, Task.block _ [], m => (m, Outcome.normal)
  | fuel + 1, Task.block scope (s :: rest), m =>
    match s with
    | Stmt.tick c => exec E fuel (Task.block scope rest) (m.log (Event.tick c))
    | Stmt.observe =>
      match scope with
      | none => (m, Outcome.undefined)
      | some a =>
        exec E fuel (Task.block scope rest)
          (m.log (Event.observe (E.types (m.ctx a).exception.type).name
            (m.ctx a).exception.message))
    | Stmt.THROW x => throw_exception E m x
    | Stmt.THROW_variable =>
      match scope with
      | none => (m, Outcome.undefined)
      | some a => throw_exception E m (m.ctx a).exception
    | Stmt.INT_TRY =>
      match scope with
      | none => (m, Outcome.undefined)
      | some a => INT_TRY m a
    | Stmt.BREAK_TRY =>
      match scope with
      | none => (m, Outcome.undefined)
      | some a => BREAK_TRY m a
    | Stmt.TRY r =>
      match exec E fuel (Task.region m.next r Phase.dispatch) (TRY m) with
      | (m1, Outcome.normal) => exec E fuel (Task.block scope rest) m1
      | (m1, Outcome.exit) => exec E fuel (Task.block scope rest) m1
      | res => res
  | fuel + 1, Task.region a r Phase.dispatch, m =>
    if (m.ctx a).status = TryCatchStatus.Trying then
      match next a (exec E fuel (Task.block (some a) r.body) (m.log (Event.enterBody a))) with
      | Next.proceed m1 => exec E fuel (Task.region a r Phase.noexcep) m1
      | Next.redispatch m1 => exec E fuel (Task.region a r Phase.dispatch) m1
      | Next.leave res => res
    else
      match CATCH E fuel m a r.catches with
      | none => (m, Outcome.timeout)
      | some (m1, none) => exec E fuel (Task.region a r Phase.noexcep) m1
      | some (m1, some (_, block)) =>
        match next a (exec E fuel (Task.block (some a) block) m1) with
        | Next.proceed m2 => exec E fuel (Task.region a r Phase.noexcep) m2
        | Next.redispatch m2 => exec E fuel (Task.region a r Phase.dispatch) m2
        | Next.leave res => res
  | fuel + 1, Task.region a r Phase.noexcep, m =>
    match r.noexcep with
    | none => exec E fuel (Task.region a r Phase.finally_block) m
    | some block =>
      let m1 := settle_no_exception m a
      if (m1.ctx a).status = TryCatchStatus.NoException then
        match next a (exec E fuel (Task.block (some a) block) (m1.log (Event.enterNoexcep a))) with
        | Next.proceed m2 => exec E fuel (Task.region a r Phase.finally_block) m2
        | Next.redispatch m2 => exec E fuel (Task.region a r Phase.dispatch) m2
        | Next.leave res => res
      else exec E fuel (Task.region a r Phase.finally_block) m1
  | fuel + 1, Task.region a r Phase.finally_block, m =>
    match r.finally_block with
    | none => exec E fuel (Task.region a r Phase.try_end) m
    | some block =>
      let m1 := settle_no_exception m a
      if m1.finally_executed a then exec E fuel (Task.region a r Phase.try_end) m1
      else
        match next a (exec E fuel (Task.block (some a) block)
            ((m1.setFinallyExecuted a true).log (Event.enterFinally a))) with
        | Next.proceed m2 => exec E fuel (Task.region a r Phase.try_end) m2
        | Next.redispatch m2 => exec E fuel (Task.region a r Phase.dispatch) m2
        | Next.leave res => res
  | _ + 1, Task.region a _ Phase.try_end, m => TRY_END E m a

/-- Run a program, a block at top level, from the machine `m`. -/
def run (E : Env) (fuel : Nat) (program : List Stmt) (m : Machine) : Machine × Outcome :=
  exec E fuel (Task.block none program) m

/-- The events that the region at `a` adds to the trace while its body keeps
raising `x`: entries of the body, and calls of the deleter of `x`. -/
def LoopEvent (a : Nat) (x : ExceptionInstance) (ev : Event) : Prop :=
  ev = Event.enterBody a ∨ ∃ fn, x.deleter = some fn ∧ ev = Event.deleter fn x.message

/-! ## Invariants of the machine -/

/-- A property of the machine that every assignment the library makes keeps:
logging, a status other than `Trying`, the exception slot, the FINALLY flag, the
interrupted env, the stack pointer, and the entry of a region. -/
structure Preserved (P : Machine → Prop) : Prop where
  log : ∀ (m : Machine) (e : Event), P m → P (m.log e)
  setStatus : ∀ (m : Machine) (a : Nat) (s : TryCatchStatus),
    s ≠ TryCatchStatus.Trying → P m → P (m.setStatus a s)
  setException : ∀ (m : Machine) (a : Nat) (x : ExceptionInstance), P m → P (m.setException a x)
  setFinallyExecuted : ∀ (m : Machine) (a : Nat) (b : Bool), P m → P (m.setFinallyExecuted a b)
  setEnv : ∀ (m : Machine) (a : Nat), P m → P { m with try_catch_interrupted_env := some a }
  setStack : ∀ (m : Machine) (p : Option Nat), P m → P { m with try_catch_context_stack := p }
  entry : ∀ (m : Machine), P m → P (TRY m)

/-- The contexts linked from the pointer `p`, innermost first, as a list of
addresses. -/
inductive Stack (m : Machine) : Option Nat → List Nat → Prop where
  | nil : Stack m none []
  | cons (a : Nat) (l : List Nat) : Stack m (m.ctx a).link l → Stack m (some a) (a :: l)

/-- The effect of one event on the list of regions entered and not yet left. -/
def active_step (s : List Nat) (e : Event) : List Nat :=
  match e with
  | Event.push a => a :: s
  | Event.pop => s.tail
  | _ => s

/-- The regions entered and not yet left, innermost first, as the trace tells. -/
def active_regions (trace : List Event) : List Nat :=
  trace.foldl active_step []

/-- The context stack of `m` is the list `l`: the links from the stack pointer
run through `l`; `l` is the list of the regions entered and not yet left;
addresses fall along the links and lie below the next fresh one; and a context
with status `Interrupted` is not younger than the region that wrote the
interrupted env last. -/
structure WellFormed (m : Machine) (l : List Nat) : Prop where
  stack : Stack m m.try_catch_context_stack l
  active : active_regions m.trace = l
  sorted : l.Pairwise (fun a b => b < a)
  bound : ∀ a ∈ l, a < m.next
  env : ∀ c ∈ l, (m.ctx c).status = TryCatchStatus.Interrupted →
    ∃ d, m.try_catch_interrupted_env = some d ∧ c ≤ d

/-- What the stack discipline says of the result of the region at `a`, run from
any of its phases with its context on top of the contexts `l`: when control
leaves the region (falling off `TRY_END`, by the statement of an early exit, or
by a re-raise to the context below) the stack is `l` again; while the region
runs, its context is on the stack under those of the regions inside it. -/
def RegionPost (a : Nat) (l : List Nat) (res : Machine × Outcome) : Prop :=
  match res.2 with
  | Outcome.normal => WellFormed res.1 l
  | Outcome.exit => WellFormed res.1 l
  | Outcome.jump t _ => WellFormed res.1 l ∧ ∃ l', l = t :: l'
  | Outcome.timeout => ∃ l', WellFormed res.1 (l' ++ a :: l)
  | Outcome.resume d => ∀ c ∈ a :: l, c < d
  | Outcome.halt => WellFormed res.1 []
  | Outcome.undefined => True

namespace Sample

/-- A type table: `EXCEPTION` at 0, `IOError` at 1 under it, `DiskFullError` at 2
under `IOError`, `ParseError` at 3 under `EXCEPTION`. -/
def types : TypeTable
  | 0 => EXCEPTION
  | 1 => { name := "IOError", parent := some 0 }
  | 2 => { name := "DiskFullError", parent := some 1 }
  | 3 => { name := "ParseError", parent := some 0 }
  | _ => { name := "", parent := none }

/-- The sample table with 2 and 3 for the two undeclared enumerators. -/
def env : Env :=
  { types := types, TryCatchStatusExceptionOccurred := 2, TryCatchStatusExceptionRaised := 3 }

/-- An `IOError` with a message and no deleter, as `THROW_NEW(IOError, "disk full", NULL)`
builds it. -/
def disk_full : ExceptionInstance :=
  { type := 1, message := some "disk full", deleter := none, file := some "main.c", line := 42 }

/-- An `IOError` whose message is owned: the deleter at address 7 releases it. -/
def disk_full_owned : ExceptionInstance :=
  { type := 1, message := some "disk full", deleter := some 7, file := some "main.c", line := 42 }

/-- A `ParseError` whose message is owned by the deleter at address 8. -/
def bad_token : ExceptionInstance :=
  { type := 3, message := some "bad token", deleter := some 8, file := some "main.c", line := 57 }

/-- The region `TRY { THROW(&x); } CATCH(IOError, e) { counter1++; } TRY_END`. -/
def raise_and_catch_region (x : ExceptionInstance) : Region :=
  Region.mk [Stmt.THROW x] [(1, [Stmt.tick 1])] none none

/-- The program that is the region `raise_and_catch_region x`. -/
def raise_and_catch (x : ExceptionInstance) : List Stmt :=
  [Stmt.TRY (raise_and_catch_region x)]

/-- The region `TRY { body } CATCH(type, e) { counter1++; } FINALLY { counter2++; } TRY_END`. -/
def with_finally_region (body : List Stmt) (type : Nat) : Region :=
  Region.mk body [(type, [Stmt.tick 1])] none (some [Stmt.tick 2])

/-- The program that is the region `with_finally_region body type`. -/
def with_finally (body : List Stmt) (type : Nat) : List Stmt :=
  [Stmt.TRY (with_finally_region body type)]

/-- A region that raises `disk_full` and declares a clause for `ParseError` only. -/
def unmatched_inner : Region :=
  Region.mk [Stmt.THROW disk_full] [(3, [Stmt.tick 1])] none none

/-- A region with `inner` as its body and one clause, for `type`, that reads the
type name and the message through its variable. -/
def observing_outer (inner : Region) (type : Nat) : Region :=
  Region.mk [Stmt.TRY inner] [(type, [Stmt.observe])] none none

/-- The region `unmatched_inner` nested in a region with a catch-all clause. -/
def nested_unmatched : List Stmt :=
  [Stmt.TRY (observing_outer unmatched_inner 0)]

/-- A region whose body raises `disk_full`, whose clause for `IOError` raises
`bad_token`, and that declares a clause for `ParseError` after it. -/
def raise_in_catch_inner : Region :=
  Region.mk [Stmt.THROW disk_full]
    [(1, [Stmt.THROW bad_token]), (3, [Stmt.tick 1])] none none

/-- The region `raise_in_catch_inner` nested in a region with a clause for
`ParseError`. -/
def nested_raise_in_catch : List Stmt :=
  [Stmt.TRY (observing_outer raise_in_catch_inner 3)]

/-- A region with an empty body and a FINALLY block that counts and then raises
`bad_token`. -/
def finally_raises_inner : Region :=
  Region.mk [] [] none (some [Stmt.tick 2, Stmt.THROW bad_token])

/-- The region `finally_raises_inner` nested in a region with a catch-all clause. -/
def finally_raises : List Stmt :=
  [Stmt.TRY (observing_outer finally_raises_inner 0)]

/-- A region whose body raises `disk_full_owned` and whose clause for `IOError`
raises the exception again through its variable: `CATCH(IOError, e) { THROW(e); }`. -/
def rethrow_region : Region :=
  Region.mk [Stmt.THROW disk_full_owned] [(1, [Stmt.THROW_variable])] none none

/-- The region `TRY { counter0++; } NOEXCEP { counter3++; } FINALLY { THROW(&disk_full); }
TRY_END`. -/
def noexcep_finally_raises : Region :=
  Region.mk [Stmt.tick 0] [] (some [Stmt.tick 3]) (some [Stmt.THROW disk_full])

/-- The region `TRY { counter0++; } NOEXCEP { counter3++; THROW(&disk_full); } TRY_END`. -/
def noexcep_raises : Region :=
  Region.mk [Stmt.tick 0] [] (some [Stmt.tick 3, Stmt.THROW disk_full]) none

/-- The region `TRY { counter0++; } FINALLY { counter2++; INT_TRY(break); counter4++; }
TRY_END`. -/
def int_try_in_finally : Region :=
  Region.mk [Stmt.tick 0] [] none (some [Stmt.tick 2, Stmt.INT_TRY, Stmt.tick 4])

/-- The machine in which one region, at address 0, has been entered and holds
`x` with status `ExceptionOccurred0`. -/
def arrived (x : ExceptionInstance) : Machine :=
  ((TRY Machine.init).setStatus 0 TryCatchStatus.ExceptionOccurred0).setException 0 x

end Sample

/-! ## Lemmas on the parent chain -/

theorem chain_none (types : TypeTable) (n : Nat) : chain types n none = none := by
  induction n with
  | zero => rfl
  | succ n ih => simpa [chain] using ih

theorem chain_succ_some (types : TypeTable) (n a : Nat) :
    chain types (n + 1) (some a) = chain types n (types a).parent := by
  simp [chain]

theorem instance_of_loop_spec (types : TypeTable) (type : Nat) :
    ∀ (fuel k : Nat) (p : Option Nat), chain types k p = none → k < fuel →
      ∃ b, instance_of_loop types type fuel p = some b ∧
        (b = true ↔ ∃ j, chain types j p = some type) := by
  intro fuel
  induction fuel with
  | zero => intro k p _ hk; omega
  | succ fuel ih =>
    intro k p hend hk
    cases p with
    | none =>
      refine ⟨false, rfl, ?_⟩
      simp [chain_none]
    | some a =>
      by_cases hat : a = type
      · refine ⟨true, by simp [instance_of_loop, hat], ?_⟩
        simp only [true_iff]
        exact ⟨0, by simp [chain, hat]⟩
      · cases k with
        | zero => simp [chain] at hend
        | succ k =>
          rw [chain_succ_some] at hend
          obtain ⟨b, hb, hiff⟩ := ih k (types a).parent hend (by omega)
          refine ⟨b, by simp [instance_of_loop, hat, hb], ?_⟩
          rw [hiff]
          constructor
          · rintro ⟨j, hj⟩
            exact ⟨j + 1, by rw [chain_succ_some]; exact hj⟩
          · rintro ⟨j, hj⟩
            cases j with
            | zero => simp [chain] at hj; exact absurd hj hat
            | succ j => exact ⟨j, by rw [chain_succ_some] at hj; exact hj⟩

theorem isAncestor_iff_chain (types : TypeTable) (anc t : Nat) :
    IsAncestor types anc t ↔ ∃ j, chain types j (types t).parent = some anc := by
  constructor
  · intro h
    unfold IsAncestor at h
    induction h using Relation.TransGen.head_induction_on with
    | base h => exact ⟨0, by simpa [chain] using h⟩
    | ih h _ ih =>
      obtain ⟨j, hj⟩ := ih
      exact ⟨j + 1, by rw [h, chain_succ_some]; exact hj⟩
  · rintro ⟨j, hj⟩
    induction j generalizing t with
    | zero => exact Relation.TransGen.single (by simpa [chain] using hj)
    | succ j ih =>
      cases hp : (types t).parent with
      | none => rw [hp, chain_none] at hj; cases hj
      | some d =>
        rw [hp, chain_succ_some] at hj
        exact Relation.TransGen.head hp (ih d hj)

theorem exception_instance_of_spec (types : TypeTable) (e : ExceptionInstance) (type : Nat)
    (n fuel : Nat) (hend : chain types n (some e.type) = none) (hfuel : n ≤ fuel) :
    ∃ b, exception_instance_of types fuel e type = some b ∧ (b = true ↔ Matches types e type) := by
  unfold exception_instance_of Matches
  by_cases h : e.type = type ∨ type = EXCEPTION_addr
  · refine ⟨true, by simp [h], ?_⟩
    simp only [true_iff]
    rcases h with h | h
    · exact Or.inl h
    · exact Or.inr (Or.inl h)
  · cases n with
    | zero => simp [chain] at hend
    | succ n =>
      rw [chain_succ_some] at hend
      obtain ⟨b, hb, hiff⟩ := instance_of_loop_spec types type fuel n _ hend (by omega)
      refine ⟨b, by simp [h, hb], ?_⟩
      rw [hiff, ← isAncestor_iff_chain]
      push_neg at h
      constructor
      · intro ha; exact Or.inr (Or.inr ha)
      · rintro (h1 | h1 | h1)
        · exact absurd h1 h.1
        · exact absurd h1 h.2
        · exact h1


/-! ## Lemmas on catch dispatch -/

theorem catch_select_match (E : Env) (fuel : Nat) (context : TryCatchContext)
    (hst : context.status = TryCatchStatus.ExceptionOccurred0)
    (hdec : ∀ type, ∃ b, exception_instance_of E.types fuel context.exception type = some b ∧
      (b = true ↔ Matches E.types context.exception type)) :
    ∀ (catches : List (Nat × List Stmt)) (i0 i type : Nat) (block : List Stmt),
      catches[i]? = some (type, block) → Matches E.types context.exception type →
      (∀ (j type' : Nat) (block' : List Stmt), j < i → catches[j]? = some (type', block') →
        ¬ Matches E.types context.exception type') →
      catch_select E fuel context catches i0 = some (some (i0 + i, block)) := by
  intro catches
  induction catches with
  | nil => intro i0 i type block h; simp at h
  | cons c rest ih =>
    intro i0 i type block hget hm hmin
    obtain ⟨type0, block0⟩ := c
    cases i with
    | zero =>
      simp at hget
      obtain ⟨rfl, rfl⟩ := hget
      obtain ⟨b, hb, hiff⟩ := hdec type0
      have : b = true := hiff.mpr hm
      subst this
      simp [catch_select, hst, hb]
    | succ i =>
      simp at hget
      obtain ⟨b, hb, hiff⟩ := hdec type0
      have hb' : b = false := by
        cases b with
        | false => rfl
        | true => exact absurd (hiff.mp rfl) (hmin 0 type0 block0 (by omega) (by simp))
      subst hb'
      have := ih (i0 + 1) i type block hget hm (fun j t' b' hj hg =>
        hmin (j + 1) t' b' (by omega) (by simpa using hg))
      simp [catch_select, hst, hb, this]
      omega

theorem catch_select_none (E : Env) (fuel : Nat) (context : TryCatchContext)
    (hdec : ∀ type, ∃ b, exception_instance_of E.types fuel context.exception type = some b ∧
      (b = true ↔ Matches E.types context.exception type)) :
    ∀ (catches : List (Nat × List Stmt)) (i0 : Nat),
      (∀ (j type' : Nat) (block' : List Stmt), catches[j]? = some (type', block') →
        ¬ Matches E.types context.exception type') →
      catch_select E fuel context catches i0 = some none := by
  intro catches
  induction catches with
  | nil => intro i0 _; rfl
  | cons c rest ih =>
    intro i0 hno
    obtain ⟨type0, block0⟩ := c
    obtain ⟨b, hb, hiff⟩ := hdec type0
    have hb' : b = false := by
      cases b with
      | false => rfl
      | true => exact absurd (hiff.mp rfl) (hno 0 type0 block0 (by simp))
    subst hb'
    have := ih (i0 + 1) (fun j t' b' hg => hno (j + 1) t' b' (by simpa using hg))
    by_cases hst : context.status = TryCatchStatus.ExceptionOccurred0
    · simp [catch_select, hst, hb, this]
    · simp [catch_select, hst, this]

theorem ctx_setStatus_same (m : Machine) (a : Nat) (s : TryCatchStatus) :
    (m.setStatus a s).ctx a = { m.ctx a with status := s } := by
  simp [Machine.setStatus, Machine.ctx]


/-! ### Projections of the machine updates -/

@[simp] theorem log_stack (m : Machine) (e : Event) :
    (m.log e).try_catch_context_stack = m.try_catch_context_stack := rfl
@[simp] theorem log_ctx (m : Machine) (e : Event) (a : Nat) : (m.log e).ctx a = m.ctx a := rfl
@[simp] theorem log_trace (m : Machine) (e : Event) : (m.log e).trace = m.trace ++ [e] := rfl
@[simp] theorem log_handler (m : Machine) (e : Event) :
    (m.log e).uncaught_exception_handler = m.uncaught_exception_handler := rfl
@[simp] theorem log_finally_executed (m : Machine) (e : Event) (a : Nat) :
    (m.log e).finally_executed a = m.finally_executed a := rfl

@[simp] theorem setException_stack (m : Machine) (a : Nat) (x : ExceptionInstance) :
    (m.setException a x).try_catch_context_stack = m.try_catch_context_stack := rfl
@[simp] theorem setException_trace (m : Machine) (a : Nat) (x : ExceptionInstance) :
    (m.setException a x).trace = m.trace := rfl
@[simp] theorem setException_handler (m : Machine) (a : Nat) (x : ExceptionInstance) :
    (m.setException a x).uncaught_exception_handler = m.uncaught_exception_handler := rfl
theorem setException_ctx (m : Machine) (a b : Nat) (x : ExceptionInstance) :
    (m.setException a x).ctx b =
      if b = a then { m.ctx a with exception := x } else m.ctx b := by
  by_cases h : b = a
  · subst h; simp [Machine.setException, Machine.ctx]
  · simp [Machine.setException, Machine.ctx, Function.update, h]
@[simp] theorem setException_ctx_same (m : Machine) (a : Nat) (x : ExceptionInstance) :
    (m.setException a x).ctx a = { m.ctx a with exception := x } := by
  simp [setException_ctx]

@[simp] theorem drop_stack (m : Machine) (x : ExceptionInstance) :
    (DROP_EXCEPTION m x).try_catch_context_stack = m.try_catch_context_stack := by
  unfold DROP_EXCEPTION; cases x.deleter <;> rfl
@[simp] theorem drop_ctx (m : Machine) (x : ExceptionInstance) (a : Nat) :
    (DROP_EXCEPTION m x).ctx a = m.ctx a := by
  unfold DROP_EXCEPTION; cases x.deleter <;> rfl
@[simp] theorem drop_handler (m : Machine) (x : ExceptionInstance) :
    (DROP_EXCEPTION m x).uncaught_exception_handler = m.uncaught_exception_handler := by
  unfold DROP_EXCEPTION; cases x.deleter <;> rfl
theorem drop_trace (m : Machine) (x : ExceptionInstance) :
    (DROP_EXCEPTION m x).trace =
      m.trace ++ (match x.deleter with
        | some fn => [Event.deleter fn x.message]
        | none => []) := by
  unfold DROP_EXCEPTION; cases x.deleter <;> simp

theorem throw_exception_some (E : Env) (m : Machine) (x : ExceptionInstance) (top : Nat)
    (h : m.try_catch_context_stack = some top) :
    throw_exception E m x =
      ((DROP_EXCEPTION m (m.ctx top).exception).setException top x,
        Outcome.jump top
          (if (m.ctx top).status = TryCatchStatus.Trying then E.TryCatchStatusExceptionOccurred
           else E.TryCatchStatusExceptionRaised)) := by
  simp [throw_exception, h]

theorem exec_block_THROW (E : Env) (fuel : Nat) (scope : Option Nat) (x : ExceptionInstance)
    (rest : List Stmt) (m : Machine) :
    exec E (fuel + 1) (Task.block scope (Stmt.THROW x :: rest)) m = throw_exception E m x := by
  simp [exec]

theorem raise_in_body_loops (E : Env) (a : Nat) (r : Region) (x : ExceptionInstance)
    (rest : List Stmt) (hbody : r.body = Stmt.THROW x :: rest) :
    ∀ (fuel : Nat) (m : Machine), m.try_catch_context_stack = some a →
      (m.ctx a).status = TryCatchStatus.Trying →
      ((m.ctx a).exception.deleter = none ∨ (m.ctx a).exception = x) →
      (exec E fuel (Task.region a r Phase.dispatch) m).2 = Outcome.timeout ∧
      (exec E fuel (Task.region a r Phase.dispatch) m).1.try_catch_context_stack = some a ∧
      ((exec E fuel (Task.region a r Phase.dispatch) m).1.ctx a).status = TryCatchStatus.Trying ∧
      ∃ l, (exec E fuel (Task.region a r Phase.dispatch) m).1.trace = m.trace ++ l ∧
        ∀ ev ∈ l, LoopEvent a x ev := by
  intro fuel
  induction fuel with
  | zero =>
    intro m hs hst _
    exact ⟨rfl, hs, hst, [], by simp [exec], by simp⟩
  | succ fuel ih =>
    intro m hs hst hheld
    cases fuel with
    | zero =>
      have hstep : exec E (0 + 1) (Task.region a r Phase.dispatch) m =
          (m.log (Event.enterBody a), Outcome.timeout) := by
        simp [exec, hst, next]
      rw [hstep]
      refine ⟨rfl, by simpa using hs, by simpa using hst, [Event.enterBody a], by simp, ?_⟩
      intro ev hev
      simp at hev
      exact Or.inl hev
    | succ fuel =>
      have hthrow := throw_exception_some E (m.log (Event.enterBody a)) x a (by simpa using hs)
      have hstep : exec E (fuel + 1 + 1) (Task.region a r Phase.dispatch) m =
          exec E (fuel + 1) (Task.region a r Phase.dispatch)
            ((DROP_EXCEPTION (m.log (Event.enterBody a)) (m.ctx a).exception).setException a x) := by
        conv_lhs => rw [exec]
        simp only [hst, if_true, hbody]
        rw [exec_block_THROW]
        simp only [hthrow, next, log_ctx, if_true]
      rw [hstep]
      obtain ⟨h1, h2, h3, l, h4, h5⟩ := ih
        ((DROP_EXCEPTION (m.log (Event.enterBody a)) (m.ctx a).exception).setException a x)
        (by simpa using hs) (by simpa using hst) (Or.inr (by simp))
      refine ⟨h1, h2, h3, ?_⟩
      rw [h4]
      simp only [setException_trace, drop_trace, log_trace, List.append_assoc]
      refine ⟨_, rfl, ?_⟩
      intro ev hev
      simp only [List.mem_append, List.mem_singleton, List.singleton_append, List.mem_cons] at hev
      rcases hev with hev | hev | hev
      · exact Or.inl hev
      · rcases hheld with hd | hd
        · rw [hd] at hev; simp at hev
        · rw [hd] at hev
          cases hdel : x.deleter with
          | none => rw [hdel] at hev; simp at hev
          | some fn =>
            rw [hdel] at hev
            simp at hev
            exact Or.inr ⟨fn, hdel, hev⟩
      · exact h5 ev hev

/-! ### Region entry -/

theorem setStatus_ctx (m : Machine) (a b : Nat) (s : TryCatchStatus) :
    (m.setStatus a s).ctx b = if b = a then { m.ctx a with status := s } else m.ctx b := by
  by_cases h : b = a
  · subst h; simp [Machine.setStatus, Machine.ctx]
  · simp [Machine.setStatus, Machine.ctx, Function.update, h]

theorem TRY_stack (m : Machine) : (TRY m).try_catch_context_stack = some m.next := rfl

theorem TRY_next (m : Machine) : (TRY m).next = m.next + 1 := rfl

theorem TRY_trace (m : Machine) : (TRY m).trace = m.trace ++ [Event.push m.next] := rfl

theorem TRY_status (m : Machine) : ((TRY m).ctx m.next).status = TryCatchStatus.Trying := by
  simp [TRY, try_catch_context_stack_push, Machine.setLink, Machine.setException,
    Machine.setStatus, Machine.setFinallyExecuted, Machine.ctx, Machine.log]

theorem TRY_deleter (m : Machine) : ((TRY m).ctx m.next).exception.deleter = none := by
  simp [TRY, try_catch_context_stack_push, Machine.setLink, Machine.setException,
    Machine.setStatus, Machine.setFinallyExecuted, Machine.ctx, Machine.log]

theorem TRY_link (m : Machine) : ((TRY m).ctx m.next).link = m.try_catch_context_stack := by
  simp [TRY, try_catch_context_stack_push, Machine.setLink, Machine.setException,
    Machine.setStatus, Machine.setFinallyExecuted, Machine.ctx, Machine.log]

theorem TRY_finally_executed (m : Machine) : (TRY m).finally_executed m.next = false := by
  simp [TRY, try_catch_context_stack_push, Machine.setLink, Machine.setException,
    Machine.setStatus, Machine.setFinallyExecuted, Machine.finally_executed, Machine.log]

/-! ### A timeout inside a block ends the enclosing code -/

theorem exec_block_TRY_timeout (E : Env) (fuel : Nat) (scope : Option Nat) (r : Region)
    (rest : List Stmt) (m : Machine)
    (h : (exec E fuel (Task.region m.next r Phase.dispatch) (TRY m)).2 = Outcome.timeout) :
    exec E (fuel + 1) (Task.block scope (Stmt.TRY r :: rest)) m =
      exec E fuel (Task.region m.next r Phase.dispatch) (TRY m) := by
  rw [exec]
  generalize exec E fuel (Task.region m.next r Phase.dispatch) (TRY m) = res at h ⊢
  obtain ⟨m1, o⟩ := res
  simp only at h
  subst h
  rfl

theorem exec_dispatch_body_timeout (E : Env) (fuel : Nat) (a : Nat) (r : Region) (m : Machine)
    (hst : (m.ctx a).status = TryCatchStatus.Trying)
    (h : (exec E fuel (Task.block (some a) r.body) (m.log (Event.enterBody a))).2
      = Outcome.timeout) :
    exec E (fuel + 1) (Task.region a r Phase.dispatch) m =
      exec E fuel (Task.block (some a) r.body) (m.log (Event.enterBody a)) := by
  rw [exec]
  simp only [hst, if_true]
  generalize exec E fuel (Task.block (some a) r.body) (m.log (Event.enterBody a)) = res at h ⊢
  obtain ⟨m1, o⟩ := res
  simp only at h
  subst h
  rfl

/-- A region whose body starts by raising never gets past its body: at every
fuel the run is still inside, and the trace holds the push, body entries and
deleter calls only. -/
theorem region_body_raise_loops (E : Env) (r : Region) (x : ExceptionInstance)
    (rest : List Stmt) (hbody : r.body = Stmt.THROW x :: rest) (scope : Option Nat)
    (after : List Stmt) (m : Machine) (fuel : Nat) :
    (exec E fuel (Task.block scope (Stmt.TRY r :: after)) m).2 = Outcome.timeout ∧
    ∃ l, (exec E fuel (Task.block scope (Stmt.TRY r :: after)) m).1.trace = m.trace ++ l ∧
      ∀ ev ∈ l, ev = Event.push m.next ∨ LoopEvent m.next x ev := by
  cases fuel with
  | zero => exact ⟨rfl, [], by simp [exec], by simp⟩
  | succ fuel =>
    obtain ⟨h1, _, _, l, h4, h5⟩ := raise_in_body_loops E m.next r x rest hbody fuel (TRY m)
      (TRY_stack m) (TRY_status m) (Or.inl (TRY_deleter m))
    rw [exec_block_TRY_timeout E fuel scope r after m h1]
    refine ⟨h1, Event.push m.next :: l, ?_, ?_⟩
    · rw [h4, TRY_trace]; simp
    · intro ev hev
      simp only [List.mem_cons] at hev
      rcases hev with hev | hev
      · exact Or.inl hev
      · exact Or.inr (h5 ev hev)

/-- The same for a region whose body opens with such a region. -/
theorem nested_body_raise_loops (E : Env) (outer inner : Region) (x : ExceptionInstance)
    (rest after after' : List Stmt) (hinner : inner.body = Stmt.THROW x :: rest)
    (houter : outer.body = Stmt.TRY inner :: after) (scope : Option Nat) (m : Machine)
    (fuel : Nat) :
    (exec E fuel (Task.block scope (Stmt.TRY outer :: after')) m).2 = Outcome.timeout ∧
    ∃ l, (exec E fuel (Task.block scope (Stmt.TRY outer :: after')) m).1.trace = m.trace ++ l ∧
      ∀ ev ∈ l, ev = Event.push m.next ∨ ev = Event.enterBody m.next ∨
        ev = Event.push (m.next + 1) ∨ LoopEvent (m.next + 1) x ev := by
  cases fuel with
  | zero => exact ⟨rfl, [], by simp [exec], by simp⟩
  | succ fuel =>
    have key : (exec E fuel (Task.region m.next outer Phase.dispatch) (TRY m)).2
          = Outcome.timeout ∧
        ∃ l, (exec E fuel (Task.region m.next outer Phase.dispatch) (TRY m)).1.trace
            = (TRY m).trace ++ l ∧
          ∀ ev ∈ l, ev = Event.enterBody m.next ∨
            ev = Event.push (m.next + 1) ∨ LoopEvent (m.next + 1) x ev := by
      cases fuel with
      | zero => exact ⟨rfl, [], by simp [exec], by simp⟩
      | succ fuel =>
        obtain ⟨h1, l, h2, h3⟩ := region_body_raise_loops E inner x rest hinner
          (some m.next) after ((TRY m).log (Event.enterBody m.next)) fuel
        rw [← houter] at h1 h2
        rw [exec_dispatch_body_timeout E fuel m.next outer (TRY m) (TRY_status m) h1]
        refine ⟨h1, Event.enterBody m.next :: l, ?_, ?_⟩
        · rw [h2]; simp
        · intro ev hev
          simp only [List.mem_cons] at hev
          rcases hev with hev | hev
          · exact Or.inl hev
          · have := h3 ev hev
            simp only [Machine.log, TRY_next] at this
            exact Or.inr this
    obtain ⟨h1, l, h2, h3⟩ := key
    rw [exec_block_TRY_timeout E fuel scope outer after' m h1]
    refine ⟨h1, Event.push m.next :: l, ?_, ?_⟩
    · rw [h2, TRY_trace]; simp
    · intro ev hev
      simp only [List.mem_cons] at hev
      rcases hev with hev | hev
      · exact Or.inl hev
      · exact Or.inr (h3 ev hev)

/-! ## Lemmas on the sample programs -/

theorem sample_types_acyclic : Acyclic Sample.types := by
  intro t
  match t with
  | 0 => exact ⟨1, rfl⟩
  | 1 => exact ⟨2, rfl⟩
  | 2 => exact ⟨3, rfl⟩
  | 3 => exact ⟨2, rfl⟩
  | _ + 4 => exact ⟨1, rfl⟩


theorem parse_error_not_ancestor_of_io_error : ¬ IsAncestor Sample.types 3 1 := by
  rw [isAncestor_iff_chain]
  rintro ⟨j, hj⟩
  cases j with
  | zero => simp [chain, Sample.types] at hj
  | succ j =>
    have : chain Sample.types (j + 1) (Sample.types 1).parent = none := by
      show chain Sample.types (j + 1) (some 0) = none
      rw [chain_succ_some]
      exact chain_none _ _
    rw [this] at hj
    cases hj


theorem loopEvent_no_deleter (a : Nat) (x : ExceptionInstance) (hx : x.deleter = none)
    (ev : Event) (h : LoopEvent a x ev) : ev = Event.enterBody a := by
  rcases h with h | ⟨fn, hfn, _⟩
  · exact h
  · rw [hx] at hfn; cases hfn

theorem loopEvent_deleter (a fn : Nat) (x : ExceptionInstance) (hx : x.deleter = some fn)
    (ev : Event) (h : LoopEvent a x ev) :
    ev = Event.enterBody a ∨ ev = Event.deleter fn x.message := by
  rcases h with h | ⟨fn', hfn, h⟩
  · exact Or.inl h
  · rw [hx] at hfn; cases hfn; exact Or.inr h


theorem no_tick_of_loop (c : Nat) (tr : List Event)
    (h : ∀ ev ∈ tr, ev = Event.push 0 ∨ LoopEvent 0 Sample.disk_full ev) :
    tr.count (Event.tick c) = 0 := by
  rw [List.count_eq_zero]
  intro hmem
  rcases h _ hmem with h | h
  · cases h
  · cases loopEvent_no_deleter _ _ rfl _ h


/-! ## The exception type registry -/

/-- C1. In an acyclic hierarchy `exception_instance_of(e, t)` returns, and it
returns true exactly when `e.type` is the node `t`, or `t` is the root
`EXCEPTION`, or `t` lies on the parent chain of `e.type`. -/
theorem exception_instance_of_iff_matches (types : TypeTable) (hac : Acyclic types)
    (e : ExceptionInstance) (t : Nat) :
    ∃ fuel0, ∀ fuel, fuel0 ≤ fuel →
      ∃ b, exception_instance_of types fuel e t = some b ∧
        (b = true ↔ (e.type = t ∨ t = EXCEPTION_addr ∨ IsAncestor types t e.type)) := by
  obtain ⟨n, hn⟩ := hac e.type
  exact ⟨n, fun fuel hf => exception_instance_of_spec types e t n fuel hn hf⟩

/-- The sample table is acyclic; an `IOError` instance is an instance of `IOError`
and of `EXCEPTION`, not of `ParseError` nor of its own child `DiskFullError`. -/
theorem exception_instance_of_iff_matches_witness :
    Acyclic Sample.types ∧
    (∃ fuel0, ∀ fuel, fuel0 ≤ fuel →
      ∃ b, exception_instance_of Sample.types fuel Sample.disk_full 3 = some b ∧
        (b = true ↔ (Sample.disk_full.type = 3 ∨ 3 = EXCEPTION_addr ∨
          IsAncestor Sample.types 3 Sample.disk_full.type))) ∧
    exception_instance_of Sample.types 2 Sample.disk_full 1 = some true ∧
    exception_instance_of Sample.types 2 Sample.disk_full 0 = some true ∧
    exception_instance_of Sample.types 2 Sample.disk_full 3 = some false ∧
    exception_instance_of Sample.types 2 Sample.disk_full 2 = some false :=
  ⟨sample_types_acyclic,
    exception_instance_of_iff_matches Sample.types sample_types_acyclic Sample.disk_full 3,
    by decide, by decide, by decide, by decide⟩


/-! ## Catch dispatch -/

/-- C2. At the dispatch point of a region whose context holds an exception with
status `ExceptionOccurred0`, the catch clause that runs is the first one, in
declaration order, whose type the held exception matches; selecting it sets the
status to `CaughtException` and leaves the held exception, which the clause
variable points to, in place; when no clause matches, none runs and the status
is unchanged. -/
theorem catch_dispatch_first_match (E : Env) (hac : Acyclic E.types) (m : Machine) (a : Nat)
    (r : Region) (hst : (m.ctx a).status = TryCatchStatus.ExceptionOccurred0) :
    ∃ fuel0, ∀ fuel, fuel0 ≤ fuel →
      (∀ type, ∃ b, exception_instance_of E.types fuel (m.ctx a).exception type = some b ∧
        (b = true ↔ Matches E.types (m.ctx a).exception type)) ∧
      (∀ i type block, r.catches[i]? = some (type, block) →
        Matches E.types (m.ctx a).exception type →
        (∀ (j type' : Nat) (block' : List Stmt), j < i → r.catches[j]? = some (type', block') →
          ¬ Matches E.types (m.ctx a).exception type') →
        CATCH E fuel m a r.catches =
            some ((m.setStatus a TryCatchStatus.CaughtException).log (Event.enterCatch a i),
              some (i, block)) ∧
          (((m.setStatus a TryCatchStatus.CaughtException).log (Event.enterCatch a i)).ctx a).status
            = TryCatchStatus.CaughtException ∧
          (((m.setStatus a TryCatchStatus.CaughtException).log (Event.enterCatch a i)).ctx a).exception
            = (m.ctx a).exception ∧
          exec E (fuel + 1) (Task.region a r Phase.dispatch) m =
            (match next a (exec E fuel (Task.block (some a) block)
                ((m.setStatus a TryCatchStatus.CaughtException).log (Event.enterCatch a i))) with
              | Next.proceed m2 => exec E fuel (Task.region a r Phase.noexcep) m2
              | Next.redispatch m2 => exec E fuel (Task.region a r Phase.dispatch) m2
              | Next.leave res => res)) ∧
      ((∀ (j type' : Nat) (block' : List Stmt), r.catches[j]? = some (type', block') →
          ¬ Matches E.types (m.ctx a).exception type') →
        CATCH E fuel m a r.catches = some (m, none) ∧
          exec E (fuel + 1) (Task.region a r Phase.dispatch) m =
            exec E fuel (Task.region a r Phase.noexcep) m) := by
  obtain ⟨n, hn⟩ := hac (m.ctx a).exception.type
  refine ⟨n, fun fuel hf => ?_⟩
  have hdec := fun type => exception_instance_of_spec E.types (m.ctx a).exception type n fuel hn hf
  refine ⟨hdec, ?_, ?_⟩
  · intro i type block hget hm hmin
    have hsel := catch_select_match E fuel (m.ctx a) hst hdec r.catches 0 i type block hget hm hmin
    have hC : CATCH E fuel m a r.catches =
        some ((m.setStatus a TryCatchStatus.CaughtException).log (Event.enterCatch a i),
          some (i, block)) := by
      simp [CATCH, hsel]
    refine ⟨hC, ?_, ?_, ?_⟩
    · simp [log_ctx, ctx_setStatus_same]
    · simp [log_ctx, ctx_setStatus_same]
    · simp [exec, hst, hC]
  · intro hno
    have hsel := catch_select_none E fuel (m.ctx a) hdec r.catches 0 hno
    have hC : CATCH E fuel m a r.catches = some (m, none) := by simp [CATCH, hsel]
    exact ⟨hC, by simp [exec, hst, hC]⟩

/-- With clauses for `ParseError`, `EXCEPTION`, `IOError` in this order and an
`IOError` held, clause number 1 (the catch-all) is selected, not the exact match
that follows it. -/
theorem catch_dispatch_first_match_witness :
    Acyclic Sample.env.types ∧
    ((((TRY Machine.init).setStatus 0 TryCatchStatus.ExceptionOccurred0).setException 0
        Sample.disk_full).ctx 0).status = TryCatchStatus.ExceptionOccurred0 ∧
    ∃ fuel0, ∀ fuel, fuel0 ≤ fuel →
      CATCH Sample.env fuel
          (((TRY Machine.init).setStatus 0 TryCatchStatus.ExceptionOccurred0).setException 0
            Sample.disk_full) 0
          [(3, [Stmt.tick 1]), (0, [Stmt.tick 2]), (1, [Stmt.tick 3])] =
        some ((((((TRY Machine.init).setStatus 0 TryCatchStatus.ExceptionOccurred0).setException 0
            Sample.disk_full).setStatus 0 TryCatchStatus.CaughtException).log
              (Event.enterCatch 0 1)), some (1, [Stmt.tick 2])) := by
  refine ⟨sample_types_acyclic, rfl, ?_⟩
  obtain ⟨fuel0, h⟩ := catch_dispatch_first_match Sample.env sample_types_acyclic
    (((TRY Machine.init).setStatus 0 TryCatchStatus.ExceptionOccurred0).setException 0
      Sample.disk_full) 0
    (Region.mk [] [(3, [Stmt.tick 1]), (0, [Stmt.tick 2]), (1, [Stmt.tick 3])] none none) rfl
  refine ⟨fuel0, fun fuel hf => ?_⟩
  refine ((h fuel hf).2.1 1 0 [Stmt.tick 2] rfl (Or.inr (Or.inl rfl)) ?_).1
  intro j type' block' hj hget
  have hj0 : j = 0 := by omega
  subst hj0
  have : type' = 3 := by
    simp [Region.catches] at hget
    exact hget.1.symm
  subst this
  rintro (h1 | h1 | h1)
  · exact absurd h1 (by decide)
  · exact absurd h1 (by decide)
  · exact parse_error_not_ancestor_of_io_error h1


/-! ## Raising -/

/-- C3 (defect in the code). A raise from the body of a region leaves the status
of its context at `Trying`: `throw_exception` hands the status to longjmp, and
`TRY` casts the value setjmp returns to void. The dispatch therefore enters the
body again, for ever, and no catch clause runs; a raise under another status
(here `CaughtException`) leaves that status in place too. -/
theorem raise_in_body_keeps_status_trying (E : Env) (fuel : Nat) :
    ((TRY Machine.init).ctx 0).status = TryCatchStatus.Trying ∧
    (throw_exception E (TRY Machine.init) Sample.disk_full).2
      = Outcome.jump 0 E.TryCatchStatusExceptionOccurred ∧
    ((throw_exception E (TRY Machine.init) Sample.disk_full).1.ctx 0).status
      = TryCatchStatus.Trying ∧
    (throw_exception E ((TRY Machine.init).setStatus 0 TryCatchStatus.CaughtException)
        Sample.disk_full).2 = Outcome.jump 0 E.TryCatchStatusExceptionRaised ∧
    ((throw_exception E ((TRY Machine.init).setStatus 0 TryCatchStatus.CaughtException)
        Sample.disk_full).1.ctx 0).status = TryCatchStatus.CaughtException ∧
    (run E fuel (Sample.raise_and_catch Sample.disk_full) Machine.init).2 = Outcome.timeout ∧
    (∀ ev ∈ (run E fuel (Sample.raise_and_catch Sample.disk_full) Machine.init).1.trace,
      ev = Event.push 0 ∨ ev = Event.enterBody 0) ∧
    (run E 4 (Sample.raise_and_catch Sample.disk_full) Machine.init).1.trace
      = [Event.push 0, Event.enterBody 0, Event.enterBody 0, Event.enterBody 0] := by
  refine ⟨rfl, rfl, rfl, rfl, rfl, ?_, ?_, rfl⟩
  · exact (region_body_raise_loops E (Sample.raise_and_catch_region Sample.disk_full)
      Sample.disk_full [] rfl none [] Machine.init fuel).1
  · obtain ⟨_, l, h2, h3⟩ :=
      region_body_raise_loops E (Sample.raise_and_catch_region Sample.disk_full)
      Sample.disk_full [] rfl none [] Machine.init fuel
    intro ev hev
    unfold run Sample.raise_and_catch at hev
    rw [h2] at hev
    simp only [Machine.init, List.nil_append] at hev
    rcases h3 ev hev with h | h
    · exact Or.inl h
    · exact Or.inr (loopEvent_no_deleter _ _ rfl ev h)

/-- C4. On a non-empty context stack `throw_exception(x)` calls the deleter of
the exception held by the innermost context on its message once when there is a
deleter and not at all otherwise, stores `x` in the innermost context, and jumps
to the env of the innermost context, where the dispatch of its region runs
again; the statements after the raise do not run. -/
theorem throw_exception_on_context (E : Env) (m : Machine) (x : ExceptionInstance) (top : Nat)
    (h : m.try_catch_context_stack = some top) :
    (throw_exception E m x).1.trace =
        m.trace ++ (match (m.ctx top).exception.deleter with
          | some fn => [Event.deleter fn (m.ctx top).exception.message]
          | none => []) ∧
      ((throw_exception E m x).1.ctx top).exception = x ∧
      (throw_exception E m x).1.try_catch_context_stack = some top ∧
      (∃ val, (throw_exception E m x).2 = Outcome.jump top val) ∧
      next top (throw_exception E m x) = Next.redispatch (throw_exception E m x).1 ∧
      ∀ (fuel : Nat) (scope : Option Nat) (rest : List Stmt),
        exec E (fuel + 1) (Task.block scope (Stmt.THROW x :: rest)) m = throw_exception E m x := by
  rw [throw_exception_some E m x top h]
  refine ⟨?_, ?_, ?_, ⟨_, rfl⟩, ?_, ?_⟩
  · simp [drop_trace]
  · simp
  · simpa using h
  · simp [next]
  · intro fuel scope rest
    rw [exec_block_THROW, throw_exception_some E m x top h]

/-- A context that holds an exception with a deleter, and a raise of another
exception on it. -/
theorem throw_exception_on_context_witness :
    ((TRY Machine.init).setException 0 Sample.disk_full_owned).try_catch_context_stack = some 0 ∧
    (throw_exception Sample.env ((TRY Machine.init).setException 0 Sample.disk_full_owned)
        Sample.bad_token).1.trace =
      ((TRY Machine.init).setException 0 Sample.disk_full_owned).trace ++
        (match (((TRY Machine.init).setException 0 Sample.disk_full_owned).ctx 0).exception.deleter with
          | some fn => [Event.deleter fn
              (((TRY Machine.init).setException 0 Sample.disk_full_owned).ctx 0).exception.message]
          | none => []) :=
  ⟨rfl, (throw_exception_on_context Sample.env
    ((TRY Machine.init).setException 0 Sample.disk_full_owned) Sample.bad_token 0 rfl).1⟩

/-- C5. On an empty context stack `throw_exception(x)` calls the configured
uncaught-exception handler once, on `x`, leaves the stack empty, and control
does not come back: the statements after the raise do not run. -/
theorem throw_exception_uncaught (E : Env) (m : Machine) (x : ExceptionInstance)
    (h : m.try_catch_context_stack = none) :
    (throw_exception E m x).2 = Outcome.halt ∧
      (throw_exception E m x).1.try_catch_context_stack = none ∧
      (throw_exception E m x).1.trace =
        m.trace ++ Event.handler m.uncaught_exception_handler x ::
          (if m.uncaught_exception_handler = default_uncaught_exception_handler_addr then
            [Event.stderr (print_exception_info E.types x), Event.abort]
           else []) ∧
      ∀ (fuel : Nat) (scope : Option Nat) (rest : List Stmt),
        exec E (fuel + 1) (Task.block scope (Stmt.THROW x :: rest)) m = throw_exception E m x := by
  have hte : throw_exception E m x =
      call_uncaught_exception_handler E m m.uncaught_exception_handler x := by
    simp [throw_exception, h]
  refine ⟨?_, ?_, ?_, fun fuel scope rest => exec_block_THROW E fuel scope x rest m⟩
  · rw [hte]; unfold call_uncaught_exception_handler default_uncaught_exception_handler
    split <;> rfl
  · rw [hte]; unfold call_uncaught_exception_handler default_uncaught_exception_handler
    split <;> simpa using h
  · rw [hte]; unfold call_uncaught_exception_handler default_uncaught_exception_handler
    split <;> simp [*]

/-- A raise on the initial machine, whose context stack is empty. -/
theorem throw_exception_uncaught_witness :
    Machine.init.try_catch_context_stack = none ∧
    (throw_exception Sample.env Machine.init Sample.disk_full).2 = Outcome.halt ∧
    (throw_exception Sample.env Machine.init Sample.disk_full).1.try_catch_context_stack = none :=
  ⟨rfl, (throw_exception_uncaught Sample.env Machine.init Sample.disk_full rfl).1,
    (throw_exception_uncaught Sample.env Machine.init Sample.disk_full rfl).2.1⟩


/-! ## Regions whose body or FINALLY block raises -/

/-- C6 (defect in the code). When the body of a region with a FINALLY block
raises, with or without a matching catch clause, the region never leaves its
body and the counter of the FINALLY block stays 0; after normal completion and
after INT_TRY in the body the counter is 1. -/
theorem finally_not_reached_when_body_raises (E : Env) (fuel : Nat) :
    (run E fuel (Sample.with_finally [Stmt.THROW Sample.disk_full] 1) Machine.init).2
      = Outcome.timeout ∧
    (run E fuel (Sample.with_finally [Stmt.THROW Sample.disk_full] 1) Machine.init).1.counter 2
      = 0 ∧
    (run E fuel (Sample.with_finally [Stmt.THROW Sample.disk_full] 3) Machine.init).2
      = Outcome.timeout ∧
    (run E fuel (Sample.with_finally [Stmt.THROW Sample.disk_full] 3) Machine.init).1.counter 2
      = 0 ∧
    (run E 7 (Sample.with_finally [Stmt.tick 0] 1) Machine.init).2 = Outcome.normal ∧
    (run E 7 (Sample.with_finally [Stmt.tick 0] 1) Machine.init).1.counter 2 = 1 ∧
    (run E 7 (Sample.with_finally [Stmt.INT_TRY] 1) Machine.init).2 = Outcome.normal ∧
    (run E 7 (Sample.with_finally [Stmt.INT_TRY] 1) Machine.init).1.counter 2 = 1 := by
  have loops : ∀ type : Nat,
      (run E fuel (Sample.with_finally [Stmt.THROW Sample.disk_full] type) Machine.init).2
        = Outcome.timeout ∧
      (run E fuel (Sample.with_finally [Stmt.THROW Sample.disk_full] type) Machine.init).1.counter 2
        = 0 := by
    intro type
    obtain ⟨h1, l, h2, h3⟩ := region_body_raise_loops E
      (Sample.with_finally_region [Stmt.THROW Sample.disk_full] type)
      Sample.disk_full [] rfl none [] Machine.init fuel
    refine ⟨h1, ?_⟩
    unfold Machine.counter run Sample.with_finally
    rw [h2]
    exact no_tick_of_loop 2 _ h3
  exact ⟨(loops 1).1, (loops 1).2, (loops 3).1, (loops 3).2, rfl, rfl, rfl, rfl⟩

/-- C7 (defect in the code). When the body of an inner region raises an instance
that no inner clause matches, the inner region enters its body again for ever:
its context is never popped and the catch-all clause of the outer region never
runs. -/
theorem unmatched_inner_raise_never_reaches_outer (E : Env) (fuel : Nat) :
    (run E fuel Sample.nested_unmatched Machine.init).2 = Outcome.timeout ∧
    (∀ ev ∈ (run E fuel Sample.nested_unmatched Machine.init).1.trace,
      ev = Event.push 0 ∨ ev = Event.enterBody 0 ∨ ev = Event.push 1 ∨ ev = Event.enterBody 1) ∧
    (run E 6 Sample.nested_unmatched Machine.init).1.trace
      = [Event.push 0, Event.enterBody 0, Event.push 1, Event.enterBody 1, Event.enterBody 1,
          Event.enterBody 1] := by
  obtain ⟨h1, l, h2, h3⟩ := nested_body_raise_loops E
    (Sample.observing_outer Sample.unmatched_inner 0) Sample.unmatched_inner Sample.disk_full
    [] [] [] rfl rfl none Machine.init fuel
  refine ⟨h1, ?_, rfl⟩
  intro ev hev
  unfold run Sample.nested_unmatched at hev
  rw [h2] at hev
  simp only [Machine.init, List.nil_append] at hev
  rcases h3 ev hev with h | h | h | h
  · exact Or.inl h
  · exact Or.inr (Or.inl h)
  · exact Or.inr (Or.inr (Or.inl h))
  · exact Or.inr (Or.inr (Or.inr (loopEvent_no_deleter _ _ rfl ev h)))

/-- C8 (defect in the code). With an inner region whose clause for `IOError`
raises a `ParseError`, the clause of the outer region for `ParseError` never
runs: the inner body is entered again for ever. Even from a machine in which
the first raise had arrived with status `ExceptionOccurred0`, the exception
raised in the clause is dropped at the exit of the inner region, which ends
normally. -/
theorem raise_in_catch_never_reaches_outer (E : Env) (fuel : Nat) :
    (run E fuel Sample.nested_raise_in_catch Machine.init).2 = Outcome.timeout ∧
    (∀ ev ∈ (run E fuel Sample.nested_raise_in_catch Machine.init).1.trace,
      ev = Event.push 0 ∨ ev = Event.enterBody 0 ∨ ev = Event.push 1 ∨ ev = Event.enterBody 1) ∧
    (exec Sample.env 6 (Task.region 1 Sample.raise_in_catch_inner Phase.dispatch)
      (((TRY ((TRY Machine.init).log (Event.enterBody 0))).setStatus 1
        TryCatchStatus.ExceptionOccurred0).setException 1 Sample.disk_full)).2 = Outcome.normal ∧
    (exec Sample.env 6 (Task.region 1 Sample.raise_in_catch_inner Phase.dispatch)
      (((TRY ((TRY Machine.init).log (Event.enterBody 0))).setStatus 1
        TryCatchStatus.ExceptionOccurred0).setException 1 Sample.disk_full)).1.trace
      = [Event.push 0, Event.enterBody 0, Event.push 1, Event.enterCatch 1 0, Event.pop,
          Event.deleter 8 (some "bad token")] := by
  obtain ⟨h1, l, h2, h3⟩ := nested_body_raise_loops E
    (Sample.observing_outer Sample.raise_in_catch_inner 3) Sample.raise_in_catch_inner
    Sample.disk_full [] [] [] rfl rfl none Machine.init fuel
  refine ⟨h1, ?_, by decide, by decide⟩
  intro ev hev
  unfold run Sample.nested_raise_in_catch at hev
  rw [h2] at hev
  simp only [Machine.init, List.nil_append] at hev
  rcases h3 ev hev with h | h | h | h
  · exact Or.inl h
  · exact Or.inr (Or.inl h)
  · exact Or.inr (Or.inr (Or.inl h))
  · exact Or.inr (Or.inr (Or.inr (loopEvent_no_deleter _ _ rfl ev h)))

/-- C9 (defect in the code). An exception raised in a FINALLY block replaces the
held one and the block does not run again, yet the exception does not
propagate: the region pops, calls the deleter of the new exception and ends
normally, so neither the catch-all clause of an outer region nor the uncaught
handler sees it. -/
theorem raise_in_finally_is_dropped (E : Env) :
    (run E 12 Sample.finally_raises Machine.init).2 = Outcome.normal ∧
    (run E 12 Sample.finally_raises Machine.init).1.trace
      = [Event.push 0, Event.enterBody 0, Event.push 1, Event.enterBody 1, Event.enterFinally 1,
          Event.tick 2, Event.pop, Event.deleter 8 (some "bad token"), Event.pop] ∧
    (run E 12 Sample.finally_raises Machine.init).1.try_catch_context_stack = none ∧
    (run E 12 [Stmt.TRY Sample.finally_raises_inner] Machine.init).2 = Outcome.normal ∧
    (run E 12 [Stmt.TRY Sample.finally_raises_inner] Machine.init).1.trace
      = [Event.push 0, Event.enterBody 0, Event.enterFinally 0, Event.tick 2, Event.pop,
          Event.deleter 8 (some "bad token")] :=
  ⟨rfl, rfl, rfl, rfl, rfl⟩

/-- C10 (defect in the code). For an instance with a deleter raised in a region
body with a matching clause, the clause never runs and the region never exits;
the deleter is called each time the body, entered again, raises anew. From a
machine in which the raise had arrived with status `ExceptionOccurred0`, the
clause runs and the deleter is called once, after the pop. -/
theorem deleter_called_on_every_reentry (E : Env) (fuel : Nat) :
    (run E fuel (Sample.raise_and_catch Sample.disk_full_owned) Machine.init).2
      = Outcome.timeout ∧
    (∀ ev ∈ (run E fuel (Sample.raise_and_catch Sample.disk_full_owned) Machine.init).1.trace,
      ev = Event.push 0 ∨ ev = Event.enterBody 0 ∨ ev = Event.deleter 7 (some "disk full")) ∧
    (run E 5 (Sample.raise_and_catch Sample.disk_full_owned) Machine.init).1.trace
      = [Event.push 0, Event.enterBody 0, Event.enterBody 0, Event.deleter 7 (some "disk full"),
          Event.enterBody 0, Event.deleter 7 (some "disk full"), Event.enterBody 0] ∧
    (exec Sample.env 6
      (Task.region 0 (Sample.raise_and_catch_region Sample.disk_full_owned) Phase.dispatch)
      (((TRY Machine.init).setStatus 0 TryCatchStatus.ExceptionOccurred0).setException 0
        Sample.disk_full_owned)).1.trace
      = [Event.push 0, Event.enterCatch 0 0, Event.tick 1, Event.pop,
          Event.deleter 7 (some "disk full")] := by
  obtain ⟨h1, l, h2, h3⟩ := region_body_raise_loops E
    (Sample.raise_and_catch_region Sample.disk_full_owned) Sample.disk_full_owned [] rfl none []
    Machine.init fuel
  refine ⟨h1, ?_, rfl, by decide⟩
  intro ev hev
  unfold run Sample.raise_and_catch at hev
  rw [h2] at hev
  simp only [Machine.init, List.nil_append] at hev
  rcases h3 ev hev with h | h
  · exact Or.inl h
  · exact Or.inr (loopEvent_deleter 0 7 Sample.disk_full_owned rfl ev h)

/-! ### More projections of the machine updates -/

@[simp] theorem log_env (m : Machine) (e : Event) :
    (m.log e).try_catch_interrupted_env = m.try_catch_interrupted_env := rfl
@[simp] theorem log_next (m : Machine) (e : Event) : (m.log e).next = m.next := rfl
@[simp] theorem setException_env (m : Machine) (a : Nat) (x : ExceptionInstance) :
    (m.setException a x).try_catch_interrupted_env = m.try_catch_interrupted_env := rfl
@[simp] theorem setException_next (m : Machine) (a : Nat) (x : ExceptionInstance) :
    (m.setException a x).next = m.next := rfl
theorem setException_finally_executed (m : Machine) (a b : Nat) (x : ExceptionInstance) :
    (m.setException a x).finally_executed b = m.finally_executed b := by
  by_cases h : b = a
  · subst h; simp [Machine.setException, Machine.finally_executed]
  · simp [Machine.setException, Machine.finally_executed, Function.update, h]
@[simp] theorem drop_env (m : Machine) (x : ExceptionInstance) :
    (DROP_EXCEPTION m x).try_catch_interrupted_env = m.try_catch_interrupted_env := by
  unfold DROP_EXCEPTION; cases x.deleter <;> rfl
@[simp] theorem drop_next (m : Machine) (x : ExceptionInstance) :
    (DROP_EXCEPTION m x).next = m.next := by
  unfold DROP_EXCEPTION; cases x.deleter <;> rfl
@[simp] theorem drop_finally_executed (m : Machine) (x : ExceptionInstance) (a : Nat) :
    (DROP_EXCEPTION m x).finally_executed a = m.finally_executed a := by
  unfold DROP_EXCEPTION; cases x.deleter <;> rfl


/-! ## Frame of a raise, the handler slot, early exit after FINALLY -/

/-- C20. On a non-empty context stack `throw_exception(x)` changes, of the state
of the thread, only the exception slot of the innermost context: the stack
pointer, the status and the link of every context, the exception slots of all
other contexts, the FINALLY flags, the handler and the interrupted env are as
before. -/
theorem throw_exception_frame (E : Env) (m : Machine) (x : ExceptionInstance) (top : Nat)
    (h : m.try_catch_context_stack = some top) :
    (throw_exception E m x).1.try_catch_context_stack = m.try_catch_context_stack ∧
    (∀ b, ((throw_exception E m x).1.ctx b).status = (m.ctx b).status ∧
      ((throw_exception E m x).1.ctx b).link = (m.ctx b).link) ∧
    (∀ b, b ≠ top → ((throw_exception E m x).1.ctx b).exception = (m.ctx b).exception) ∧
    ((throw_exception E m x).1.ctx top).exception = x ∧
    (∀ b, (throw_exception E m x).1.finally_executed b = m.finally_executed b) ∧
    (throw_exception E m x).1.uncaught_exception_handler = m.uncaught_exception_handler ∧
    (throw_exception E m x).1.try_catch_interrupted_env = m.try_catch_interrupted_env ∧
    (throw_exception E m x).1.next = m.next := by
  rw [throw_exception_some E m x top h]
  refine ⟨by simp, ?_, ?_, by simp, ?_, by simp, by simp, by simp⟩
  · intro b
    simp only [setException_ctx, drop_ctx]
    split <;> simp [*]
  · intro b hb
    simp [setException_ctx, hb]
  · intro b
    simp [setException_finally_executed]

/-- Two nested contexts, the outer one holding an exception; a raise changes the
slot of the inner one only. -/
theorem throw_exception_frame_witness :
    ((TRY (TRY Machine.init)).setException 0 Sample.disk_full_owned).try_catch_context_stack
      = some 1 ∧
    ((throw_exception Sample.env ((TRY (TRY Machine.init)).setException 0 Sample.disk_full_owned)
      Sample.bad_token).1.ctx 0).exception = Sample.disk_full_owned ∧
    ((throw_exception Sample.env ((TRY (TRY Machine.init)).setException 0 Sample.disk_full_owned)
      Sample.bad_token).1.ctx 1).exception = Sample.bad_token := by
  have h := throw_exception_frame Sample.env
    ((TRY (TRY Machine.init)).setException 0 Sample.disk_full_owned) Sample.bad_token 1 rfl
  exact ⟨rfl, (h.2.2.1 0 (by decide)).trans rfl, h.2.2.2.1⟩

/-- C18. The uncaught-exception handler is one slot: it holds the default handler
at the start, `get` returns what `set` stored last, setting it leaves the
context stack and the contexts as they are, and a raise on an empty stack
calls the handler that was set. -/
theorem uncaught_exception_handler_slot (E : Env) (m : Machine) (h1 h2 : Nat)
    (x : ExceptionInstance) (hempty : m.try_catch_context_stack = none) :
    get_uncaught_exception_handler Machine.init = default_uncaught_exception_handler_addr ∧
    get_uncaught_exception_handler (set_uncaught_exception_handler m h1) = h1 ∧
    get_uncaught_exception_handler
      (set_uncaught_exception_handler (set_uncaught_exception_handler m h1) h2) = h2 ∧
    (set_uncaught_exception_handler m h1).try_catch_context_stack = m.try_catch_context_stack ∧
    (∀ a, (set_uncaught_exception_handler m h1).ctx a = m.ctx a) ∧
    (throw_exception E (set_uncaught_exception_handler m h1) x).1.trace =
      m.trace ++ Event.handler h1 x ::
        (if h1 = default_uncaught_exception_handler_addr then
          [Event.stderr (print_exception_info E.types x), Event.abort]
         else []) := by
  refine ⟨rfl, rfl, rfl, rfl, fun _ => rfl, ?_⟩
  have hte : throw_exception E (set_uncaught_exception_handler m h1) x =
      call_uncaught_exception_handler E (set_uncaught_exception_handler m h1) h1 x := by
    simp [throw_exception, set_uncaught_exception_handler, hempty]
  rw [hte]
  unfold call_uncaught_exception_handler default_uncaught_exception_handler
  split <;> simp [*, set_uncaught_exception_handler]

/-- After the handler at address 5 is set on the initial machine, a raise calls it. -/
theorem uncaught_exception_handler_slot_witness :
    Machine.init.try_catch_context_stack = none ∧
    (throw_exception Sample.env (set_uncaught_exception_handler Machine.init 5)
      Sample.disk_full).1.trace = [Event.handler 5 Sample.disk_full] := by
  have h := uncaught_exception_handler_slot Sample.env Machine.init 5 6 Sample.disk_full rfl
  exact ⟨rfl, h.2.2.2.2.2.trans rfl⟩

/-- C19. When `_try_catch_finally_executed` is set, `INT_TRY(statement)` in the
region on top of the stack pops once, drops the held exception once and runs the
statement: no context changes (the status does not become `Interrupted`), the
interrupted env is not written, there is no jump to the dispatch point and the
region does not run its FINALLY block again. -/
theorem INT_TRY_after_finally (E : Env) (m : Machine) (a : Nat)
    (hfin : m.finally_executed a = true) (htop : m.try_catch_context_stack = some a) :
    (INT_TRY m a).2 = Outcome.exit ∧
    (INT_TRY m a).1.trace =
      m.trace ++ Event.pop ::
        ((match (m.ctx a).exception.deleter with
          | some fn => [Event.deleter fn (m.ctx a).exception.message]
          | none => []) ++ [Event.statement a]) ∧
    (INT_TRY m a).1.try_catch_context_stack = (m.ctx a).link ∧
    (∀ b, (INT_TRY m a).1.ctx b = m.ctx b) ∧
    (INT_TRY m a).1.try_catch_interrupted_env = m.try_catch_interrupted_env ∧
    next a (INT_TRY m a) = Next.leave (INT_TRY m a) ∧
    ∀ (fuel : Nat) (rest : List Stmt),
      exec E (fuel + 1) (Task.block (some a) (Stmt.INT_TRY :: rest)) m = INT_TRY m a := by
  have hI : INT_TRY m a =
      ((DROP_EXCEPTION ({ m with try_catch_context_stack := (m.ctx a).link }.log Event.pop)
        (m.ctx a).exception).log (Event.statement a), Outcome.exit) := by
    simp [INT_TRY, hfin, BREAK_TRY, try_catch_context_stack_pop, htop]
    rfl
  refine ⟨by rw [hI], ?_, ?_, ?_, ?_, ?_, ?_⟩
  · rw [hI]; simp [drop_trace]
  · rw [hI]; simp
  · intro b; rw [hI]; simp; rfl
  · rw [hI]; simp
  · rw [hI]; rfl
  · intro fuel rest; simp [exec]

/-- A region entered and marked as having run its FINALLY block; and a program
with `INT_TRY` inside the FINALLY block, which runs that block once. -/
theorem INT_TRY_after_finally_witness :
    ((TRY Machine.init).setFinallyExecuted 0 true).finally_executed 0 = true ∧
    ((TRY Machine.init).setFinallyExecuted 0 true).try_catch_context_stack = some 0 ∧
    (INT_TRY ((TRY Machine.init).setFinallyExecuted 0 true) 0).2 = Outcome.exit ∧
    (run Sample.env 12 [Stmt.TRY Sample.int_try_in_finally, Stmt.tick 9] Machine.init).1.trace
      = [Event.push 0, Event.enterBody 0, Event.tick 0, Event.enterFinally 0, Event.tick 2,
          Event.pop, Event.statement 0, Event.tick 9] :=
  ⟨by decide, rfl,
    (INT_TRY_after_finally Sample.env ((TRY Machine.init).setFinallyExecuted 0 true) 0
      (by decide) rfl).1,
    by decide⟩

/-- C11, as stated, fails: an instance with a deleter raised on an empty stack, or
re-raised by `TRY_END` out of the only region, reaches the handler and the
deleter is called zero times. -/
theorem uncaught_instance_deleter_not_called :
    (throw_exception Sample.env Machine.init Sample.disk_full_owned).1.trace
      = [Event.handler 0 Sample.disk_full_owned,
          Event.stderr "IOError (file \"main.c\", line 42): disk full\n", Event.abort] ∧
    (throw_exception Sample.env Machine.init Sample.disk_full_owned).1.trace.count
      (Event.deleter 7 (some "disk full")) = 0 ∧
    (TRY_END Sample.env (Sample.arrived Sample.disk_full_owned) 0).1.trace.count
      (Event.deleter 7 (some "disk full")) = 0 := by
  refine ⟨by decide, by decide, by decide⟩

/-- C11, amended. An instance that falls through to the uncaught-exception handler,
raised on an empty context stack or re-raised by `TRY_END` out of the outermost
region, is handed to the handler as it is; the library adds the handler call
(and, for the default handler, the printed line and the abort) to the trace and
no deleter call. -/
theorem uncaught_instance_handed_to_handler (E : Env) (m : Machine) (x : ExceptionInstance) :
    (m.try_catch_context_stack = none →
      (throw_exception E m x).2 = Outcome.halt ∧
      (throw_exception E m x).1.trace =
        m.trace ++ Event.handler m.uncaught_exception_handler x ::
          (if m.uncaught_exception_handler = default_uncaught_exception_handler_addr then
            [Event.stderr (print_exception_info E.types x), Event.abort]
           else [])) ∧
    (∀ a, m.try_catch_context_stack = some a → (m.ctx a).link = none →
      ((m.ctx a).status = TryCatchStatus.ExceptionOccurred0 ∨
        (m.ctx a).status = TryCatchStatus.ExceptionOccurred1) →
      (TRY_END E m a).2 = Outcome.halt ∧
      (TRY_END E m a).1.trace =
        m.trace ++ Event.pop :: Event.handler m.uncaught_exception_handler (m.ctx a).exception ::
          (if m.uncaught_exception_handler = default_uncaught_exception_handler_addr then
            [Event.stderr (print_exception_info E.types (m.ctx a).exception), Event.abort]
           else [])) := by
  have key : ∀ (m : Machine) (x : ExceptionInstance), m.try_catch_context_stack = none →
      (throw_exception E m x).2 = Outcome.halt ∧
      (throw_exception E m x).1.trace =
        m.trace ++ Event.handler m.uncaught_exception_handler x ::
          (if m.uncaught_exception_handler = default_uncaught_exception_handler_addr then
            [Event.stderr (print_exception_info E.types x), Event.abort]
           else []) := by
    intro m x h
    have hte : throw_exception E m x =
        call_uncaught_exception_handler E m m.uncaught_exception_handler x := by
      simp [throw_exception, h]
    rw [hte]
    unfold call_uncaught_exception_handler default_uncaught_exception_handler
    split <;> simp [*]
  refine ⟨key m x, ?_⟩
  intro a htop hlink hst
  have hne : (m.ctx a).status ≠ TryCatchStatus.Interrupted := by
    rcases hst with h | h <;> rw [h] <;> decide
  have hT : TRY_END E m a =
      throw_exception E ({ m with try_catch_context_stack := none }.log Event.pop)
        (m.ctx a).exception := by
    have hst' : (({ m with try_catch_context_stack := (none : Option Nat) }.log Event.pop).ctx a).status
          = TryCatchStatus.ExceptionOccurred0 ∨
        (({ m with try_catch_context_stack := (none : Option Nat) }.log Event.pop).ctx a).status
          = TryCatchStatus.ExceptionOccurred1 := hst
    simp only [TRY_END, hne, if_false, try_catch_context_stack_pop, htop, hlink]
    rw [if_pos hst']
    rfl
  rw [hT]
  have := key ({ m with try_catch_context_stack := none }.log Event.pop) (m.ctx a).exception rfl
  simpa using this

/-- The initial machine, and the machine in which the only region holds an
exception with status `ExceptionOccurred0`. -/
theorem uncaught_instance_handed_to_handler_witness :
    Machine.init.try_catch_context_stack = none ∧
    (throw_exception Sample.env Machine.init Sample.disk_full_owned).2 = Outcome.halt ∧
    (Sample.arrived Sample.disk_full_owned).try_catch_context_stack = some 0 ∧
    (TRY_END Sample.env (Sample.arrived Sample.disk_full_owned) 0).2 = Outcome.halt :=
  ⟨rfl,
    ((uncaught_instance_handed_to_handler Sample.env Machine.init Sample.disk_full_owned).1
      rfl).1,
    rfl,
    ((uncaught_instance_handed_to_handler Sample.env (Sample.arrived Sample.disk_full_owned)
      Sample.disk_full_owned).2 0 rfl (by decide) (Or.inl (by decide))).1⟩

/-- C12 (defect in the code). `THROW(variable)` hands `throw_exception` the slot
of the innermost context itself; `throw_exception` drops that slot before it
stores the instance, so the re-raise calls the deleter. From a machine in which
the raise had arrived with status `ExceptionOccurred0`, the clause re-raises
(first deleter call) and `TRY_END` then drops the slot again (second call) and
ends the region normally; run from the start, the region never leaves its
body. -/
theorem rethrow_calls_deleter_twice (E : Env) (fuel : Nat) :
    (throw_exception E
        ((Sample.arrived Sample.disk_full_owned).setStatus 0 TryCatchStatus.CaughtException)
        (((Sample.arrived Sample.disk_full_owned).setStatus 0
          TryCatchStatus.CaughtException).ctx 0).exception).1.trace
      = [Event.push 0, Event.deleter 7 (some "disk full")] ∧
    (exec E 6 (Task.region 0 Sample.rethrow_region Phase.dispatch)
        (Sample.arrived Sample.disk_full_owned)).2 = Outcome.normal ∧
    (exec E 6 (Task.region 0 Sample.rethrow_region Phase.dispatch)
        (Sample.arrived Sample.disk_full_owned)).1.trace
      = [Event.push 0, Event.enterCatch 0 0, Event.deleter 7 (some "disk full"), Event.pop,
          Event.deleter 7 (some "disk full")] ∧
    (run E fuel [Stmt.TRY Sample.rethrow_region] Machine.init).2 = Outcome.timeout := by
  refine ⟨rfl, rfl, rfl, ?_⟩
  exact (region_body_raise_loops E Sample.rethrow_region Sample.disk_full_owned [] rfl none []
    Machine.init fuel).1

/-- C16 (defect in the code). After a body that completes normally the NOEXCEP
block runs; when the FINALLY block then raises, the status is still
`NoException` at the dispatch point and the NOEXCEP block runs a second time.
A NOEXCEP block that raises is entered again and again. -/
theorem noexcep_block_runs_twice (E : Env) :
    (run E 9 [Stmt.TRY Sample.noexcep_finally_raises] Machine.init).2 = Outcome.normal ∧
    (run E 9 [Stmt.TRY Sample.noexcep_finally_raises] Machine.init).1.trace
      = [Event.push 0, Event.enterBody 0, Event.tick 0, Event.enterNoexcep 0, Event.tick 3,
          Event.enterFinally 0, Event.enterNoexcep 0, Event.tick 3, Event.pop] ∧
    (run E 9 [Stmt.TRY Sample.noexcep_finally_raises] Machine.init).1.counter 3 = 2 ∧
    (run E 12 [Stmt.TRY Sample.noexcep_raises] Machine.init).1.counter 3 = 5 :=
  ⟨rfl, rfl, rfl, rfl⟩

/-- C17, as stated, fails: the output ends with a newline character, and an
absent file is printed as `(unknown source)`. -/
theorem print_exception_info_writes_more :
    print_exception_info Sample.types Sample.disk_full
      = "IOError (file \"main.c\", line 42): disk full\n" ∧
    print_exception_info Sample.types Sample.disk_full
      ≠ "IOError (file \"main.c\", line 42): disk full" ∧
    print_exception_info Sample.types { Sample.disk_full with file := none }
      = "IOError (unknown source): disk full\n" := by
  refine ⟨by decide, by decide, by decide⟩

/-- C17, amended. `print_exception_info` writes the type name, then
` (file "<path>", line <n>)` with `n` in decimal, or ` (file "<path>")` when the
line is 0, or ` (unknown source)` when the file is absent; then `: <message>`
when the message is present; then a newline character. -/
theorem print_exception_info_format (types : TypeTable) (x : ExceptionInstance) :
    (∀ file message, x.file = some file → x.line ≠ 0 → x.message = some message →
      print_exception_info types x =
        (types x.type).name ++ " (file \"" ++ file ++ "\", line " ++ Nat.repr x.line ++ ")"
          ++ ": " ++ message ++ "\n") ∧
    (∀ file, x.file = some file → x.line ≠ 0 → x.message = none →
      print_exception_info types x =
        (types x.type).name ++ " (file \"" ++ file ++ "\", line " ++ Nat.repr x.line ++ ")"
          ++ "\n") ∧
    (∀ file message, x.file = some file → x.line = 0 → x.message = some message →
      print_exception_info types x =
        (types x.type).name ++ " (file \"" ++ file ++ "\")" ++ ": " ++ message ++ "\n") ∧
    (∀ file, x.file = some file → x.line = 0 → x.message = none →
      print_exception_info types x =
        (types x.type).name ++ " (file \"" ++ file ++ "\")" ++ "\n") ∧
    (∀ message, x.file = none → x.message = some message →
      print_exception_info types x =
        (types x.type).name ++ " (unknown source)" ++ ": " ++ message ++ "\n") ∧
    (x.file = none → x.message = none →
      print_exception_info types x = (types x.type).name ++ " (unknown source)" ++ "\n") := by
  refine ⟨?_, ?_, ?_, ?_, ?_, ?_⟩
  · intro file message hf hl hm
    simp only [print_exception_info, hf, hm, if_neg hl, String.append_assoc]
  · intro file hf hl hm
    simp only [print_exception_info, hf, hm, if_neg hl, String.append_assoc, String.empty_append]
  · intro file message hf hl hm
    simp only [print_exception_info, hf, hm, if_pos hl, String.append_assoc]
  · intro file hf hl hm
    simp only [print_exception_info, hf, hm, if_pos hl, String.append_assoc, String.empty_append]
  · intro message hf hm
    simp only [print_exception_info, hf, hm, String.append_assoc]
  · intro hf hm
    simp only [print_exception_info, hf, hm, String.append_assoc, String.empty_append]

/-- The sample instance has a file, a line and a message. -/
theorem print_exception_info_format_witness :
    Sample.disk_full.file = some "main.c" ∧ Sample.disk_full.line ≠ 0 ∧
    Sample.disk_full.message = some "disk full" ∧
    print_exception_info Sample.types Sample.disk_full =
      (Sample.types Sample.disk_full.type).name ++ " (file \"" ++ "main.c" ++ "\", line "
        ++ Nat.repr Sample.disk_full.line ++ ")" ++ ": " ++ "disk full" ++ "\n" :=
  ⟨rfl, by decide, rfl,
    (print_exception_info_format Sample.types Sample.disk_full).1 "main.c" "disk full" rfl
      (by decide) rfl⟩

/-! ## Lemmas on fuel and on the phases of a region -/

/-! ### More fuel does not change a result -/

theorem Preserved.of_drop {P : Machine → Prop} (hP : Preserved P) (m : Machine)
    (x : ExceptionInstance) (h : P m) : P (DROP_EXCEPTION m x) := by
  unfold DROP_EXCEPTION
  cases x.deleter with
  | none => exact h
  | some fn => exact hP.log _ _ h

theorem Preserved.of_throw {P : Machine → Prop} (hP : Preserved P) (E : Env) (m : Machine)
    (x : ExceptionInstance) (h : P m) : P (throw_exception E m x).1 := by
  unfold throw_exception
  cases m.try_catch_context_stack with
  | none =>
    simp only [call_uncaught_exception_handler, default_uncaught_exception_handler]
    split
    · exact hP.log _ _ (hP.log _ _ (hP.log _ _ h))
    · exact hP.log _ _ h
  | some top => exact hP.setException _ _ _ (hP.of_drop _ _ h)

theorem Preserved.of_pop {P : Machine → Prop} (hP : Preserved P) (m m1 : Machine)
    (hpop : try_catch_context_stack_pop m = some m1) (h : P m) : P m1 := by
  unfold try_catch_context_stack_pop at hpop
  cases hs : m.try_catch_context_stack with
  | none => rw [hs] at hpop; cases hpop
  | some top =>
    rw [hs] at hpop
    simp only [Option.some.injEq] at hpop
    subst hpop
    exact hP.log _ _ (hP.setStack _ _ h)

theorem Preserved.of_break_try {P : Machine → Prop} (hP : Preserved P) (m : Machine) (a : Nat)
    (h : P m) : P (BREAK_TRY m a).1 := by
  unfold BREAK_TRY
  cases hpop : try_catch_context_stack_pop m with
  | none => exact h
  | some m1 => exact hP.log _ _ (hP.of_drop _ _ (hP.of_pop m m1 hpop h))

theorem Preserved.of_int_try {P : Machine → Prop} (hP : Preserved P) (m : Machine) (a : Nat)
    (h : P m) : P (INT_TRY m a).1 := by
  unfold INT_TRY
  split
  · exact hP.of_break_try m a h
  · exact hP.setStatus _ _ _ (by decide) (hP.setEnv _ _ h)

theorem Preserved.of_land {P : Machine → Prop} (hP : Preserved P) (a : Nat)
    (res : Machine × Outcome) (h : P res.1) : P (land_interrupted a res).1 := by
  obtain ⟨m, o⟩ := res
  cases o with
  | resume site =>
    simp only [land_interrupted]
    split
    · exact hP.of_break_try m a h
    · exact h
  | normal => exact h
  | jump t v => exact h
  | exit => exact h
  | halt => exact h
  | undefined => exact h
  | timeout => exact h

theorem Preserved.of_try_end {P : Machine → Prop} (hP : Preserved P) (E : Env) (m : Machine)
    (a : Nat) (h : P m) : P (TRY_END E m a).1 := by
  unfold TRY_END
  split
  · cases m.try_catch_interrupted_env with
    | none => exact h
    | some site => exact hP.of_land a (m, Outcome.resume site) h
  · cases hpop : try_catch_context_stack_pop m with
    | none => exact h
    | some m1 =>
      simp only
      split
      · exact hP.of_throw E _ _ (hP.of_pop m m1 hpop h)
      · exact hP.of_drop _ _ (hP.of_pop m m1 hpop h)

theorem Preserved.of_settle {P : Machine → Prop} (hP : Preserved P) (m : Machine) (a : Nat)
    (h : P m) : P (settle_no_exception m a) := by
  unfold settle_no_exception
  split
  · exact hP.setStatus _ _ _ (by decide) h
  · exact h

theorem Preserved.of_catch {P : Machine → Prop} (hP : Preserved P) (E : Env) (fuel : Nat)
    (m m1 : Machine) (a : Nat) (catches : List (Nat × List Stmt))
    (sel : Option (Nat × List Stmt)) (hC : CATCH E fuel m a catches = some (m1, sel))
    (h : P m) : P m1 := by
  unfold CATCH at hC
  cases hs : catch_select E fuel (m.ctx a) catches 0 with
  | none => rw [hs] at hC; cases hC
  | some r =>
    rw [hs] at hC
    cases r with
    | none =>
      simp only [Option.some.injEq, Prod.mk.injEq] at hC
      rw [← hC.1]; exact h
    | some ib =>
      obtain ⟨i, block⟩ := ib
      simp only [Option.some.injEq, Prod.mk.injEq] at hC
      rw [← hC.1]
      exact hP.log _ _ (hP.setStatus _ _ _ (by decide) h)

theorem Preserved.of_next {P : Machine → Prop} (hP : Preserved P) (a : Nat)
    (res : Machine × Outcome) (h : P res.1) :
    match next a res with
    | Next.proceed m1 => P m1
    | Next.redispatch m1 => P m1
    | Next.leave r => P r.1 := by
  obtain ⟨m, o⟩ := res
  cases o with
  | normal => exact h
  | jump t v =>
    by_cases ht : t = a
    · simp only [next, ht, if_true]; exact h
    · simp only [next, ht, if_false]; exact h
  | resume site => exact hP.of_land a (m, Outcome.resume site) h
  | exit => exact h
  | halt => exact h
  | undefined => exact h
  | timeout => exact h

theorem Preserved.of_exec {P : Machine → Prop} (hP : Preserved P) (E : Env) :
    ∀ (fuel : Nat) (t : Task) (m : Machine), P m → P (exec E fuel t m).1 := by
  intro fuel
  induction fuel with
  | zero => intro t m h; exact h
  | succ k ih =>
    intro t m h
    cases t with
    | block sc code =>
      cases code with
      | nil => exact h
      | cons s rest =>
        cases s with
        | tick c => rw [exec]; exact ih _ _ (hP.log _ _ h)
        | observe =>
          cases sc with
          | none => exact h
          | some a => rw [exec]; exact ih _ _ (hP.log _ _ h)
        | THROW x => rw [exec]; exact hP.of_throw E m x h
        | THROW_variable =>
          cases sc with
          | none => exact h
          | some a => rw [exec]; exact hP.of_throw E m _ h
        | INT_TRY =>
          cases sc with
          | none => exact h
          | some a => rw [exec]; exact hP.of_int_try m a h
        | BREAK_TRY =>
          cases sc with
          | none => exact h
          | some a => rw [exec]; exact hP.of_break_try m a h
        | TRY r =>
          rw [exec]
          have hR := ih (Task.region m.next r Phase.dispatch) (TRY m) (hP.entry m h)
          generalize exec E k (Task.region m.next r Phase.dispatch) (TRY m) = R at hR
          obtain ⟨m1, o1⟩ := R
          cases o1 <;> simp only <;> first | exact ih _ _ hR | exact hR
    | region a r p =>
      have nx : ∀ (T1 : Task) (m1 : Machine) (ph : Phase), P m1 →
          P (match next a (exec E k T1 m1) with
            | Next.proceed m2 => exec E k (Task.region a r ph) m2
            | Next.redispatch m2 => exec E k (Task.region a r Phase.dispatch) m2
            | Next.leave res => res).1 := by
        intro T1 m1 ph h1
        have hn := hP.of_next a (exec E k T1 m1) (ih T1 m1 h1)
        cases hx : next a (exec E k T1 m1) with
        | proceed m2 => rw [hx] at hn; exact ih _ _ hn
        | redispatch m2 => rw [hx] at hn; exact ih _ _ hn
        | leave res => rw [hx] at hn; exact hn
      cases p with
      | dispatch =>
        rw [exec]
        split
        · exact nx _ _ _ (hP.log _ _ h)
        · cases hC : CATCH E k m a r.catches with
          | none => exact h
          | some res =>
            obtain ⟨m1, sel⟩ := res
            have h1 := hP.of_catch E k m m1 a r.catches sel hC h
            cases sel with
            | none => exact ih _ _ h1
            | some ib => exact nx _ _ _ h1
      | noexcep =>
        rw [exec]
        cases r.noexcep with
        | none => exact ih _ _ h
        | some block =>
          simp only
          split
          · exact nx _ _ _ (hP.log _ _ (hP.of_settle m a h))
          · exact ih _ _ (hP.of_settle m a h)
      | finally_block =>
        rw [exec]
        cases r.finally_block with
        | none => exact ih _ _ h
        | some block =>
          simp only
          split
          · exact ih _ _ (hP.of_settle m a h)
          · exact nx _ _ _ (hP.log _ _ (hP.setFinallyExecuted _ _ _ (hP.of_settle m a h)))
      | try_end => rw [exec]; exact hP.of_try_end E m a h

theorem setFinallyExecuted_ctx (m : Machine) (a b : Nat) (v : Bool) :
    (m.setFinallyExecuted a v).ctx b = m.ctx b := by
  by_cases h : b = a
  · subst h; simp [Machine.setFinallyExecuted, Machine.ctx]
  · simp [Machine.setFinallyExecuted, Machine.ctx, Function.update, h]

theorem setLink_ctx (m : Machine) (a b : Nat) (l : Option Nat) :
    (m.setLink a l).ctx b = if b = a then { m.ctx a with link := l } else m.ctx b := by
  by_cases h : b = a
  · subst h; simp [Machine.setLink, Machine.ctx]
  · simp [Machine.setLink, Machine.ctx, Function.update, h]

theorem TRY_ctx_other (m : Machine) (b : Nat) (h : b ≠ m.next) : (TRY m).ctx b = m.ctx b := by
  simp [TRY, try_catch_context_stack_push, Machine.setLink, Machine.setException,
    Machine.setStatus, Machine.setFinallyExecuted, Machine.ctx, Machine.log, Function.update, h]

/-- C15. The status of a context that has been entered and is not `Trying` is
not `Trying` after any run of any code, whatever the fuel: raises, catch
dispatch, NOEXCEP, FINALLY and early exits never assign `Trying`. The entry of
another region assigns `Trying` to the context of that region only. -/
theorem status_never_back_to_trying (E : Env) (fuel : Nat) (t : Task) (m : Machine) (a : Nat)
    (ha : a < m.next) (hst : (m.ctx a).status ≠ TryCatchStatus.Trying) :
    ((exec E fuel t m).1.ctx a).status ≠ TryCatchStatus.Trying ∧
    a < (exec E fuel t m).1.next ∧
    ((TRY m).ctx a).status ≠ TryCatchStatus.Trying ∧
    ((TRY m).ctx m.next).status = TryCatchStatus.Trying := by
  have hP : Preserved (fun m : Machine => a < m.next ∧ (m.ctx a).status ≠ TryCatchStatus.Trying) :=
    { log := fun m e h => h
      setStatus := fun m b s hs h => by
        refine ⟨h.1, ?_⟩
        rw [setStatus_ctx]
        split
        · exact hs
        · exact h.2
      setException := fun m b x h => by
        refine ⟨h.1, ?_⟩
        rw [setException_ctx]
        split
        · rename_i hab; subst hab; exact h.2
        · exact h.2
      setFinallyExecuted := fun m b v h => by
        refine ⟨h.1, ?_⟩
        rw [setFinallyExecuted_ctx]; exact h.2
      setEnv := fun m b h => h
      setStack := fun m p h => h
      entry := fun m h => by
        refine ⟨by rw [TRY_next]; omega, ?_⟩
        rw [TRY_ctx_other m a (by omega)]; exact h.2 }
  have := hP.of_exec E fuel t m ⟨ha, hst⟩
  refine ⟨this.2, this.1, ?_, TRY_status m⟩
  rw [TRY_ctx_other m a (by omega)]; exact hst

/-- A context with status `NoException`, and the run of a region with NOEXCEP and
a raising FINALLY block from there. -/
theorem status_never_back_to_trying_witness :
    0 < (Machine.setStatus (TRY Machine.init) 0 TryCatchStatus.NoException).next ∧
    ((Machine.setStatus (TRY Machine.init) 0 TryCatchStatus.NoException).ctx 0).status
      ≠ TryCatchStatus.Trying ∧
    ((run Sample.env 9 [Stmt.TRY Sample.noexcep_finally_raises]
      (Machine.setStatus (TRY Machine.init) 0 TryCatchStatus.NoException)).1.ctx 0).status
        ≠ TryCatchStatus.Trying :=
  ⟨by decide, by decide,
    (status_never_back_to_trying Sample.env 9
      (Task.block none [Stmt.TRY Sample.noexcep_finally_raises])
      (Machine.setStatus (TRY Machine.init) 0 TryCatchStatus.NoException) 0 (by decide)
      (by decide)).1⟩

/-! ## The context stack holds the active regions -/

/-! ### The well-formed context stack -/

@[simp] theorem setStatus_stack (m : Machine) (a : Nat) (s : TryCatchStatus) :
    (m.setStatus a s).try_catch_context_stack = m.try_catch_context_stack := rfl
@[simp] theorem setStatus_env (m : Machine) (a : Nat) (s : TryCatchStatus) :
    (m.setStatus a s).try_catch_interrupted_env = m.try_catch_interrupted_env := rfl
@[simp] theorem setStatus_next (m : Machine) (a : Nat) (s : TryCatchStatus) :
    (m.setStatus a s).next = m.next := rfl
@[simp] theorem setStatus_trace (m : Machine) (a : Nat) (s : TryCatchStatus) :
    (m.setStatus a s).trace = m.trace := rfl
@[simp] theorem setFinallyExecuted_stack (m : Machine) (a : Nat) (v : Bool) :
    (m.setFinallyExecuted a v).try_catch_context_stack = m.try_catch_context_stack := rfl
@[simp] theorem setFinallyExecuted_env (m : Machine) (a : Nat) (v : Bool) :
    (m.setFinallyExecuted a v).try_catch_interrupted_env = m.try_catch_interrupted_env := rfl
@[simp] theorem setFinallyExecuted_next (m : Machine) (a : Nat) (v : Bool) :
    (m.setFinallyExecuted a v).next = m.next := rfl
@[simp] theorem setFinallyExecuted_trace (m : Machine) (a : Nat) (v : Bool) :
    (m.setFinallyExecuted a v).trace = m.trace := rfl
theorem TRY_env (m : Machine) :
    (TRY m).try_catch_interrupted_env = m.try_catch_interrupted_env := rfl

theorem active_regions_append (tr : List Event) (e : Event) :
    active_regions (tr ++ [e]) = active_step (active_regions tr) e := by
  simp [active_regions, List.foldl_append]

theorem Stack.congr_links {m m' : Machine} {p : Option Nat} {l : List Nat} (h : Stack m p l)
    (hl : ∀ c ∈ l, (m'.ctx c).link = (m.ctx c).link) : Stack m' p l := by
  induction h with
  | nil => exact Stack.nil
  | cons a l _ ih =>
    refine Stack.cons a l ?_
    rw [hl a (List.mem_cons_self a l)]
    exact ih (fun c hc => hl c (List.mem_cons_of_mem a hc))

theorem WellFormed.congr {m m' : Machine} {l : List Nat} (h : WellFormed m l)
    (hs : m'.try_catch_context_stack = m.try_catch_context_stack)
    (hl : ∀ c ∈ l, (m'.ctx c).link = (m.ctx c).link)
    (ht : active_regions m'.trace = active_regions m.trace)
    (hn : m.next ≤ m'.next)
    (hJ : ∀ c ∈ l, (m'.ctx c).status = TryCatchStatus.Interrupted →
      ∃ d, m'.try_catch_interrupted_env = some d ∧ c ≤ d) : WellFormed m' l where
  stack := by rw [hs]; exact h.stack.congr_links hl
  active := by rw [ht]; exact h.active
  sorted := h.sorted
  bound := fun a ha => Nat.lt_of_lt_of_le (h.bound a ha) hn
  env := hJ

theorem WellFormed.congr_status {m m' : Machine} {l : List Nat} (h : WellFormed m l)
    (hs : m'.try_catch_context_stack = m.try_catch_context_stack)
    (hl : ∀ c ∈ l, (m'.ctx c).link = (m.ctx c).link)
    (ht : active_regions m'.trace = active_regions m.trace)
    (hn : m.next ≤ m'.next)
    (he : m'.try_catch_interrupted_env = m.try_catch_interrupted_env)
    (hst : ∀ c ∈ l, (m'.ctx c).status = TryCatchStatus.Interrupted →
      (m.ctx c).status = TryCatchStatus.Interrupted) : WellFormed m' l :=
  h.congr hs hl ht hn (fun c hc hi => by rw [he]; exact h.env c hc (hst c hc hi))

theorem WellFormed.log {m : Machine} {l : List Nat} (h : WellFormed m l) (e : Event)
    (he : ∀ s, active_step s e = s) : WellFormed (m.log e) l :=
  h.congr_status rfl (fun _ _ => rfl)
    (by rw [log_trace, active_regions_append, he]) (Nat.le_refl _) rfl (fun _ _ hi => hi)

theorem WellFormed.setStatus {m : Machine} {l : List Nat} (h : WellFormed m l) (b : Nat)
    (s : TryCatchStatus) (hs : s ≠ TryCatchStatus.Interrupted) :
    WellFormed (m.setStatus b s) l :=
  h.congr_status rfl
    (fun c _ => by rw [setStatus_ctx]; split <;> simp [*])
    rfl (Nat.le_refl _) rfl
    (fun c _ hi => by
      rw [setStatus_ctx] at hi
      split at hi
      · exact absurd hi hs
      · exact hi)

theorem WellFormed.setException {m : Machine} {l : List Nat} (h : WellFormed m l) (b : Nat)
    (x : ExceptionInstance) : WellFormed (m.setException b x) l :=
  h.congr_status rfl
    (fun c _ => by rw [setException_ctx]; split <;> simp [*])
    rfl (Nat.le_refl _) rfl
    (fun c _ hi => by
      rw [setException_ctx] at hi
      split at hi
      · rename_i hcb; subst hcb; exact hi
      · exact hi)

theorem WellFormed.setFinallyExecuted {m : Machine} {l : List Nat} (h : WellFormed m l)
    (b : Nat) (v : Bool) : WellFormed (m.setFinallyExecuted b v) l :=
  h.congr_status rfl (fun c _ => by rw [setFinallyExecuted_ctx]) rfl (Nat.le_refl _) rfl
    (fun c _ hi => by rw [setFinallyExecuted_ctx] at hi; exact hi)

theorem WellFormed.drop {m : Machine} {l : List Nat} (h : WellFormed m l)
    (x : ExceptionInstance) : WellFormed (DROP_EXCEPTION m x) l := by
  unfold DROP_EXCEPTION
  cases x.deleter with
  | none => exact h
  | some fn => exact h.log _ (fun _ => rfl)

theorem WellFormed.entry {m : Machine} {l : List Nat} (h : WellFormed m l) :
    WellFormed (TRY m) (m.next :: l) where
  stack := by
    rw [TRY_stack]
    refine Stack.cons _ _ ?_
    rw [TRY_link]
    exact h.stack.congr_links (fun c hc => by
      rw [TRY_ctx_other m c (Nat.ne_of_lt (h.bound c hc))])
  active := by rw [TRY_trace, active_regions_append, h.active]; rfl
  sorted := List.pairwise_cons.mpr ⟨fun c hc => h.bound c hc, h.sorted⟩
  bound := fun c hc => by
    rw [TRY_next]
    rcases List.mem_cons.mp hc with hca | hcl
    · omega
    · exact Nat.lt_succ_of_lt (h.bound c hcl)
  env := fun c hc hi => by
    rcases List.mem_cons.mp hc with hca | hcl
    · subst hca; rw [TRY_status] at hi; cases hi
    · rw [TRY_ctx_other m c (Nat.ne_of_lt (h.bound c hcl))] at hi
      rw [TRY_env]; exact h.env c hcl hi

theorem Stack.inv {m : Machine} {p : Option Nat} {l : List Nat} (h : Stack m p l) :
    (p = none ∧ l = []) ∨ ∃ a l', p = some a ∧ l = a :: l' ∧ Stack m (m.ctx a).link l' := by
  cases h with
  | nil => exact Or.inl ⟨rfl, rfl⟩
  | cons a l' hrest => exact Or.inr ⟨a, l', rfl, rfl, hrest⟩

theorem WellFormed.top {m : Machine} {a : Nat} {l : List Nat} (h : WellFormed m (a :: l)) :
    m.try_catch_context_stack = some a ∧ Stack m (m.ctx a).link l := by
  rcases h.stack.inv with ⟨_, h2⟩ | ⟨b, l', h1, h2, h3⟩
  · cases h2
  · cases h2; exact ⟨h1, h3⟩

theorem WellFormed.empty {m : Machine} (h : WellFormed m []) :
    m.try_catch_context_stack = none := by
  rcases h.stack.inv with ⟨h1, _⟩ | ⟨b, l', _, h2, _⟩
  · exact h1
  · cases h2

theorem WellFormed.pop {m : Machine} {a : Nat} {l : List Nat} (h : WellFormed m (a :: l)) :
    try_catch_context_stack_pop m
        = some ({ m with try_catch_context_stack := (m.ctx a).link }.log Event.pop) ∧
      WellFormed ({ m with try_catch_context_stack := (m.ctx a).link }.log Event.pop) l := by
  refine ⟨by simp [try_catch_context_stack_pop, h.top.1], ?_⟩
  exact
    { stack := h.top.2.congr_links (fun _ _ => rfl)
      active := by
        rw [log_trace, active_regions_append]
        show active_step (active_regions m.trace) Event.pop = l
        rw [h.active]; rfl
      sorted := (List.pairwise_cons.mp h.sorted).2
      bound := fun c hc => h.bound c (List.mem_cons_of_mem a hc)
      env := fun c hc hi => h.env c (List.mem_cons_of_mem a hc) hi }

theorem WellFormed.break_try {m : Machine} {a : Nat} {l : List Nat}
    (h : WellFormed m (a :: l)) :
    (BREAK_TRY m a).2 = Outcome.exit ∧ WellFormed (BREAK_TRY m a).1 l := by
  obtain ⟨hpop, hwf⟩ := h.pop
  simp only [BREAK_TRY, hpop]
  exact ⟨trivial, (hwf.drop _).log _ (fun _ => rfl)⟩

theorem throw_exception_halt (E : Env) (m : Machine) (x : ExceptionInstance)
    (h : m.try_catch_context_stack = none) : (throw_exception E m x).2 = Outcome.halt := by
  simp only [throw_exception, h, call_uncaught_exception_handler,
    default_uncaught_exception_handler]
  split <;> rfl

theorem throw_exception_halt_wf (E : Env) {m : Machine} {l : List Nat} (h : WellFormed m l)
    (x : ExceptionInstance) (hs : m.try_catch_context_stack = none) :
    WellFormed (throw_exception E m x).1 l := by
  simp only [throw_exception, hs, call_uncaught_exception_handler,
    default_uncaught_exception_handler]
  split
  · exact ((h.log (Event.handler _ _) (fun _ => rfl)).log (Event.stderr _)
      (fun _ => rfl)).log Event.abort (fun _ => rfl)
  · exact h.log (Event.handler _ _) (fun _ => rfl)

theorem RegionPost.rethrow (E : Env) {m : Machine} {l : List Nat} (h : WellFormed m l)
    (a : Nat) (x : ExceptionInstance) : RegionPost a l (throw_exception E m x) := by
  cases l with
  | nil =>
    unfold RegionPost
    rw [throw_exception_halt E m x h.empty]
    exact throw_exception_halt_wf E h x h.empty
  | cons t l' =>
    rw [throw_exception_some E m x t h.top.1]
    exact ⟨(h.drop _).setException _ _, l', rfl⟩

theorem RegionPost.try_end (E : Env) {m : Machine} {a : Nat} {l : List Nat}
    (h : WellFormed m (a :: l)) : RegionPost a l (TRY_END E m a) := by
  unfold TRY_END
  split
  · rename_i hst
    obtain ⟨d, hd, had⟩ := h.env a (List.mem_cons_self a l) hst
    rw [hd]
    simp only [land_interrupted]
    by_cases hda : d = a
    · rw [if_pos hda]
      obtain ⟨h1, h2⟩ := h.break_try
      unfold RegionPost
      rw [h1]
      exact h2
    · rw [if_neg hda]
      intro c hc
      rcases List.mem_cons.mp hc with hca | hcl
      · omega
      · have := List.rel_of_pairwise_cons h.sorted hcl
        omega
  · obtain ⟨hpop, hwf⟩ := h.pop
    rw [hpop]
    simp only
    split
    · exact RegionPost.rethrow E hwf a _
    · exact hwf.drop _

end CException
